import Mathlib

/-!
Shallow embedding of the leadership-discovery engine of this repository
(backend/agent_logic_case2.py, backend/scraper_case2.py, backend/db.py,
backend/miner.py), together with theorems settling the spec claims.

Python strings are modelled as Lean `String` (processed as `List Char`,
ASCII character classes); Python floats used for confidence scores are
modelled as exact rationals `ℚ` (the only operations are additions of
decimal literals and clamping, where exact arithmetic is faithful);
Python dicts are modelled as association lists keyed by `String`;
arbitrary JSON-ish Python values are modelled by the inductive `JVal`.
`json.loads` and `str()` on non-string objects are uninterpreted and
passed in as parameters, so all theorems quantify over them.
-/

namespace LeadEngine

/-- ASCII model of Python `\s` / `str.strip()` whitespace. -/
def isSpaceChar (c : Char) : Bool :=
  c = ' ' || c = '\t' || c = '\n' || c = '\r' || c = '\x0b' || c = '\x0c'

/-- ASCII model of the regex `\w` class. -/
def isWordChar (c : Char) : Bool := c.isAlphanum || c = '_'

/-- Collapse every whitespace run to a single blank, as
`re.sub(r"\s+", " ", s)` does; the flag records whether the previous
character was whitespace. -/
def collapseWs : Bool → List Char → List Char
  | _, [] => []
  | prevWs, c :: cs =>
    if isSpaceChar c then
      if prevWs then collapseWs true cs else ' ' :: collapseWs true cs
    else c :: collapseWs false cs

/-- Python `str.strip()`. -/
def pyStrip (l : List Char) : List Char :=
  ((l.dropWhile isSpaceChar).reverse.dropWhile isSpaceChar).reverse

/-- `_norm` of agent_logic_case2.py / `_norm_text` of miner.py and db.py:
`re.sub(r"\s+", " ", s.strip())`. -/
def pynorm (s : String) : String := ⟨collapseWs false (pyStrip s.data)⟩

/-- Python `str.lower()` (ASCII). -/
def pyLower (s : String) : String := ⟨s.data.map Char.toLower⟩

/-- Does `pat` occur contiguously inside `hay`? -/
def hasSub : List Char → List Char → Bool
  | [], pat => pat.isEmpty
  | c :: rest, pat => pat.isPrefixOf (c :: rest) || hasSub rest pat

/-- Python `needle in hay` on strings. -/
def pyInS (needle hay : String) : Bool := hasSub hay.data needle.data

/-- Python `a or b` on strings (truthiness). -/
def orS (a b : String) : String := if a = "" then b else a

/-- Python `str.split()` with no separator: split on whitespace runs,
dropping empty pieces.  `cur` is the current word, reversed. -/
def splitWsAux (cur : List Char) : List Char → List (List Char)
  | [] => if cur.isEmpty then [] else [cur.reverse]
  | c :: cs =>
    if isSpaceChar c then
      if cur.isEmpty then splitWsAux [] cs else cur.reverse :: splitWsAux [] cs
    else splitWsAux (c :: cur) cs

def pySplitWs (s : String) : List (List Char) := splitWsAux [] s.data

/-- JSON-ish Python value.  `jother` covers numbers/booleans and carries
only its Python truthiness, the single property the embedded code ever
reads off such values. -/
inductive JVal where
  | jnull
  | jstr (s : String)
  | jdict (fields : List (String × JVal))
  | jlist (items : List JVal)
  | jother (tr : Bool)

/-- Python truthiness of a `JVal`. -/
def pyTruthy : JVal → Bool
  | .jnull => false
  | .jstr s => !(s == "")
  | .jdict f => !f.isEmpty
  | .jlist l => !l.isEmpty
  | .jother tr => tr

/-- `d.get(k)` on a Python dict (keys are unique in dicts produced by
`json.loads`, so first-match lookup is faithful). -/
def jGet (fields : List (String × JVal)) (k : String) : Option JVal :=
  (fields.find? (fun p => p.1 == k)).map (·.2)

/-- `d.get(k, default)`. -/
def jGetD (fields : List (String × JVal)) (k : String) (d : JVal) : JVal :=
  (jGet fields k).getD d

/-- Python `a or b` on `JVal`s. -/
def pyOrJ (a b : JVal) : JVal := if pyTruthy a then a else b

/-- Python `str(x)`; `strF` is the uninterpreted rendering of non-string,
non-None objects. -/
def pyToStr (strF : JVal → String) : JVal → String
  | .jnull => "None"
  | .jstr s => s
  | v => strF v

/-- `_norm(x)` applied to an arbitrary value:
`"" if x is None else str(x)`, then strip/collapse. -/
def pynormAny (strF : JVal → String) (v : JVal) : String :=
  pynorm (match v with | .jnull => "" | .jstr s => s | v => strF v)

/-- `_safe_json_load` (agent_logic_case2.py and db.py have identical
copies); `jp` is the uninterpreted `json.loads`. -/
def safeJsonLoad (jp : String → Option JVal) : JVal → Option JVal
  | .jnull => none
  | .jdict f => some (.jdict f)
  | .jlist l => some (.jlist l)
  | .jstr s =>
    let t : String := ⟨pyStrip s.data⟩
    if t = "" then none else jp t
  | .jother _ => none

/-- The five fixed buckets (`BUCKETS` of agent_logic_case2.py). -/
def BUCKETS : List String :=
  ["Executive Leadership", "Technology / Operations", "Finance / Administration",
   "Business Development / Growth", "Marketing / Branding"]

/-- One management-map entry (the inner dict of `_empty_management`). -/
structure Entry where
  name : String := ""
  designation : String := ""
  email : String := ""
  phone : String := ""
  linkedin : String := ""
deriving DecidableEq, Repr

/-- The management map: a Python dict from bucket name to entry,
modelled as an association list preserving insertion order. -/
abbrev Mgmt := List (String × Entry)

/-- `_empty_management` of agent_logic_case2.py. -/
def empty_management : Mgmt := BUCKETS.map (fun b => (b, ({} : Entry)))

def mgmtKeys (m : Mgmt) : List String := m.map Prod.fst

/-- `mgmt[b]` (total: the embedded code only reads keys that exist). -/
def mgmtGet (m : Mgmt) (b : String) : Entry :=
  ((m.find? (fun p => p.1 == b)).map (·.2)).getD {}

/-- In-place update `mgmt[b] = f (mgmt[b])` on the Python dict. -/
def mgmtSet (m : Mgmt) (b : String) (f : Entry → Entry) : Mgmt :=
  m.map (fun p => if p.1 == b then (p.1, f p.2) else p)

/-- `_leadership_found_strict` of agent_logic_case2.py. -/
def leadership_found_strict (m : Mgmt) : Bool :=
  BUCKETS.any (fun b => !(pynorm (mgmtGet m b).name == ""))

/-- `_BUCKET_RULES` of agent_logic_case2.py: ordered rule table. -/
def BUCKET_RULES : List (String × List String) :=
  [("Executive Leadership",
    ["founder", "co-founder", "cofounder", "ceo", "chief executive",
     "managing director", "md", "director", "executive director",
     "chairman", "chairperson", "president",
     "principal", "dean", "medical director", "clinical director",
     "owner", "proprietor"]),
   ("Technology / Operations",
    ["cto", "chief technology", "cio", "chief information",
     "coo", "chief operating",
     "operations", "it head", "technical", "plant head",
     "head of operations", "administrator"]),
   ("Finance / Administration",
    ["cfo", "chief financial", "finance", "accounts", "controller",
     "treasurer", "admin", "administration", "hr head",
     "human resources", "compliance"]),
   ("Business Development / Growth",
    ["cro", "chief revenue officer", "chief revenue",
     "business development", "bd", "growth", "strategy",
     "partnership", "sales head",
     "admissions", "placement",
     "revenue", "commercial"]),
   ("Marketing / Branding",
    ["cmo", "chief marketing", "marketing", "brand",
     "communications", "pr", "digital marketing",
     "outreach", "social media"])]

/-- `_map_role_to_bucket` of agent_logic_case2.py: first rule (in table
order) one of whose keywords occurs in the normalized lowercased role. -/
def map_role_to_bucket (role : String) : String :=
  let r := pyLower (pynorm role)
  if r = "" then ""
  else
    match BUCKET_RULES.find? (fun bk => bk.2.any (fun k => pyInS k r)) with
    | some bk => bk.1
    | none => ""

/-- A leader record as handled by `_clean_leaders_list` /
`_leaders_to_management`; fields are the results of `.get(..., "")`. -/
structure Leader where
  name : String := ""
  role : String := ""
  designation : String := ""
deriving DecidableEq, Repr

/-- The entry written for a leader filling bucket `b`
(name/designation assignment plus the Executive-Leadership email rule
of `_leaders_to_management`), applied to the entry previously there. -/
def ltmEntry (b email : String) (l : Leader) (e : Entry) : Entry :=
  let e1 := { e with name := pynorm l.name,
                     designation := orS (pynorm l.role) (pynorm l.designation) }
  if b == "Executive Leadership" && !(email == "") then
    { e1 with email := pynorm email }
  else e1

/-- Loop body of `_leaders_to_management`: `seen` is the
`seen_buckets` set, the loop breaks once it reaches size 5. -/
def ltmGo (email : String) : List Leader → Mgmt → List String → Mgmt
  | [], m, _ => m
  | l :: ls, m, seen =>
    let name := pynorm l.name
    let role := orS (pynorm l.role) (pynorm l.designation)
    if name == "" || role == "" then ltmGo email ls m seen
    else
      let bucket := map_role_to_bucket role
      if bucket == "" then ltmGo email ls m seen
      else if seen.contains bucket then ltmGo email ls m seen
      else
        let m2 := mgmtSet m bucket (ltmEntry bucket email l)
        if 5 ≤ (bucket :: seen).length then m2
        else ltmGo email ls m2 (bucket :: seen)

/-- `_leaders_to_management` of agent_logic_case2.py. -/
def leaders_to_management (leaders : List Leader) (email : String) : Mgmt :=
  ltmGo email leaders empty_management []

/-- `CASE2_MAX_LEADERS` (config.py default). -/
def CASE2_MAX_LEADERS : Int := 5

/-- Python `min(a, b)` on ints. -/
def pyMinI (a b : Int) : Int := if a ≤ b then a else b

/-- Python `max(a, b)` on ints. -/
def pyMaxI (a b : Int) : Int := if b ≤ a then a else b

/-- `_max_leaders()` of agent_logic_case2.py:
`max(1, min(int(CASE2_MAX_LEADERS or 5), 5))`. -/
def max_leaders : Int := pyMaxI 1 (pyMinI CASE2_MAX_LEADERS 5)

/-- Loop body of `_clean_leaders_list`: dedupe by lowercased name,
stop once `max_leaders` entries are collected. -/
def cllGo (strF : JVal → String) : List JVal → List String → Int → Int → List Leader
  | [], _, _, _ => []
  | it :: rest, seen, cnt, m =>
    match it with
    | .jdict fs =>
      let nm := pynormAny strF (jGetD fs "name" (.jstr ""))
      let rl := orS (pynormAny strF (jGetD fs "role" (.jstr "")))
                    (pynormAny strF (jGetD fs "designation" (.jstr "")))
      if nm == "" || rl == "" then cllGo strF rest seen cnt m
      else
        let key := pyLower nm
        if seen.contains key then cllGo strF rest seen cnt m
        else if m ≤ cnt + 1 then [⟨nm, rl, ""⟩]
        else ⟨nm, rl, ""⟩ :: cllGo strF rest (key :: seen) (cnt + 1) m
    | _ => cllGo strF rest seen cnt m

/-- Pre-loop value extraction of `_clean_leaders_list`: `_safe_json_load`,
then the `leaders_raw or leaders or all_leaders or []` chain on dicts. -/
def cllExtract (jp : String → Option JVal) (value : JVal) : JVal :=
  let v1 := match safeJsonLoad jp value with | some p => p | none => value
  match v1 with
  | .jdict fs =>
    pyOrJ (jGetD fs "leaders_raw" .jnull)
      (pyOrJ (jGetD fs "leaders" .jnull)
        (pyOrJ (jGetD fs "all_leaders" .jnull) (.jlist [])))
  | v => v

/-- `_clean_leaders_list` of agent_logic_case2.py. -/
def clean_leaders_list (jp : String → Option JVal) (strF : JVal → String)
    (value : JVal) (maxLeaders : Int) : List Leader :=
  let m := if maxLeaders ≤ 0 then 5 else maxLeaders
  match cllExtract jp value with
  | .jlist items => cllGo strF items [] 0 m
  | _ => []

/-- Per-bucket step of `_normalize_management_from_payload`'s loop over
`BUCKETS` when the payload carried a management dict `mfs`. -/
def nmBucketStep (strF : JVal → String) (mfs : List (String × JVal))
    (acc : Mgmt) (b : String) : Mgmt :=
  match jGetD mfs b .jnull with
  | .jdict vfs =>
    let nm := pynormAny strF (jGetD vfs "name" (.jstr ""))
    let dg := orS (pynormAny strF (jGetD vfs "designation" (.jstr "")))
                  (pynormAny strF (jGetD vfs "role" (.jstr "")))
    if nm == "" then acc
    else
      mgmtSet acc b (fun e =>
        { e with name := nm, designation := dg,
                 email := orS (pynormAny strF (jGetD vfs "email" (.jstr ""))) e.email,
                 phone := orS (pynormAny strF (jGetD vfs "phone" (.jstr ""))) e.phone,
                 linkedin := orS (pynormAny strF (jGetD vfs "linkedin" (.jstr ""))) e.linkedin })
  | .jlist (v0 :: _) =>
    let fs0 := match v0 with | .jdict d => d | _ => []
    let nm := pynormAny strF (jGetD fs0 "name" (.jstr ""))
    let dg := pynormAny strF (jGetD fs0 "role" (.jstr ""))
    if nm == "" then acc
    else mgmtSet acc b (fun e => { e with name := nm, designation := dg })
  | _ => acc

/-- `_normalize_management_from_payload` of agent_logic_case2.py. -/
def normalize_management_from_payload (jp : String → Option JVal)
    (strF : JVal → String) (payload : JVal) (email : String) : Mgmt :=
  match payload with
  | .jdict fs =>
    let mgmt0 := pyOrJ (jGetD fs "case2_management" .jnull)
                       (jGetD fs "leaders_by_category" .jnull)
    let mgmt1 := match mgmt0 with
      | .jstr s => (match safeJsonLoad jp (.jstr s) with | some v => v | none => .jnull)
      | v => v
    match mgmt1 with
    | .jdict mfs =>
      let base := BUCKETS.foldl (nmBucketStep strF mfs) empty_management
      if !(email == "") && (mgmtGet base "Executive Leadership").email == "" then
        mgmtSet base "Executive Leadership" (fun e => { e with email := pynorm email })
      else base
    | _ =>
      leaders_to_management (clean_leaders_list jp strF payload max_leaders) email
  | _ => empty_management

theorem mgmtSet_cons (p : String × Entry) (t : Mgmt) (b : String) (f : Entry → Entry) :
    mgmtSet (p :: t) b f = (if p.1 == b then (p.1, f p.2) else p) :: mgmtSet t b f := rfl

theorem mgmtKeys_cons (p : String × Entry) (t : Mgmt) :
    mgmtKeys (p :: t) = p.1 :: mgmtKeys t := rfl

theorem mgmtGet_cons (p : String × Entry) (t : Mgmt) (b : String) :
    mgmtGet (p :: t) b = if p.1 == b then p.2 else mgmtGet t b := by
  by_cases h : (p.1 == b) = true
  · simp [mgmtGet, List.find?_cons, h]
  · rw [Bool.not_eq_true] at h
    simp [mgmtGet, List.find?_cons, h]

theorem mgmtSet_keys (m : Mgmt) (b : String) (f : Entry → Entry) :
    mgmtKeys (mgmtSet m b f) = mgmtKeys m := by
  induction m with
  | nil => rfl
  | cons p t ih =>
    rw [mgmtSet_cons, mgmtKeys_cons, mgmtKeys_cons, ih]
    by_cases h : (p.1 == b) = true
    · simp [h]
    · rw [Bool.not_eq_true] at h; simp [h]

theorem mgmtGet_set_self (m : Mgmt) (b : String) (f : Entry → Entry)
    (h : b ∈ mgmtKeys m) : mgmtGet (mgmtSet m b f) b = f (mgmtGet m b) := by
  induction m with
  | nil => simp [mgmtKeys] at h
  | cons p t ih =>
    rw [mgmtSet_cons]
    by_cases hp : (p.1 == b) = true
    · rw [if_pos hp, mgmtGet_cons, mgmtGet_cons]
      simp [hp]
    · have hb : b ∈ mgmtKeys t := by
        rcases (by simpa [mgmtKeys_cons] using h : b = p.1 ∨ b ∈ mgmtKeys t) with h1 | h2
        · exact absurd (by simp [h1]) hp
        · exact h2
      rw [Bool.not_eq_true] at hp
      rw [if_neg (by simp [hp]), mgmtGet_cons, mgmtGet_cons]
      simp only [hp, if_false]
      exact ih hb

theorem mgmtGet_set_ne (m : Mgmt) (b b' : String) (f : Entry → Entry)
    (h : b' ≠ b) : mgmtGet (mgmtSet m b f) b' = mgmtGet m b' := by
  induction m with
  | nil => rfl
  | cons p t ih =>
    rw [mgmtSet_cons]
    by_cases hp : (p.1 == b) = true
    · have hpeq : p.1 = b := by simpa using hp
      have hp' : (p.1 == b') = false := by
        simp [hpeq]
        intro hc; exact h hc.symm
      rw [if_pos hp, mgmtGet_cons, mgmtGet_cons]
      simp only [hp', if_false]
      exact ih
    · rw [Bool.not_eq_true] at hp
      rw [if_neg (by simp [hp]), mgmtGet_cons, mgmtGet_cons]
      by_cases hq : (p.1 == b') = true
      · simp [hq]
      · rw [Bool.not_eq_true] at hq
        simp [hq, ih]

theorem mgmtGet_map_const_empty (bs : List String) (b : String) :
    mgmtGet (bs.map (fun x => (x, ({} : Entry)))) b = ({} : Entry) := by
  induction bs with
  | nil => rfl
  | cons x t ih =>
    rw [List.map_cons, mgmtGet_cons]
    by_cases h : ((x, ({} : Entry)).1 == b) = true
    · simp [h]
    · rw [Bool.not_eq_true] at h
      simp [h, ih]

theorem mgmtGet_empty_management (b : String) :
    mgmtGet empty_management b = ({} : Entry) :=
  mgmtGet_map_const_empty BUCKETS b

theorem empty_management_keys : mgmtKeys empty_management = BUCKETS := by rfl

theorem nmBucketStep_keys (strF : JVal → String) (mfs : List (String × JVal))
    (acc : Mgmt) (b : String) :
    mgmtKeys (nmBucketStep strF mfs acc b) = mgmtKeys acc := by
  unfold nmBucketStep
  split <;> first
    | rfl
    | (dsimp only; split <;> simp [mgmtSet_keys])

theorem foldl_nmBucketStep_keys (strF : JVal → String) (mfs : List (String × JVal))
    (bs : List String) (acc : Mgmt) :
    mgmtKeys (bs.foldl (nmBucketStep strF mfs) acc) = mgmtKeys acc := by
  induction bs generalizing acc with
  | nil => rfl
  | cons x t ih => simp [List.foldl_cons, ih, nmBucketStep_keys]

theorem ltmGo_keys (email : String) (ls : List Leader) :
    ∀ (m : Mgmt) (seen : List String),
    mgmtKeys (ltmGo email ls m seen) = mgmtKeys m := by
  induction ls with
  | nil => intro m seen; rfl
  | cons l t ih =>
    intro m seen
    simp only [ltmGo]
    split
    · exact ih m seen
    · split
      · exact ih m seen
      · split
        · exact ih m seen
        · split
          · simp [mgmtSet_keys]
          · rw [ih]; simp [mgmtSet_keys]

/-- C1: every management map produced by the engine — whether built by
`_normalize_management_from_payload` from an arbitrary payload or
directly by `_empty_management` for the empty result — has exactly the
five fixed bucket keys, in order, no more and no fewer; each value is an
`Entry`, which carries `name` and `designation` fields (possibly empty
strings) by construction. -/
theorem C1_buckets_exactly_five (jp : String → Option JVal) (strF : JVal → String)
    (payload : JVal) (email : String) :
    mgmtKeys (normalize_management_from_payload jp strF payload email) = BUCKETS ∧
    mgmtKeys empty_management = BUCKETS := by
  refine ⟨?_, empty_management_keys⟩
  unfold normalize_management_from_payload
  split
  · dsimp only
    split
    · split
      · rw [mgmtSet_keys, foldl_nmBucketStep_keys]; exact empty_management_keys
      · rw [foldl_nmBucketStep_keys]; exact empty_management_keys
    · unfold leaders_to_management
      rw [ltmGo_keys]; exact empty_management_keys
  · exact empty_management_keys

theorem bool_eq_false (b : Bool) (h : ¬ b = true) : b = false := by
  cases b
  · rfl
  · exact absurd rfl h

theorem contains_iff_mem_str (l : List String) (a : String) :
    l.contains a = true ↔ a ∈ l := by
  unfold List.contains
  exact List.elem_iff

theorem pair_contains_iff_mem (l : List (String × String)) (a : String × String) :
    l.contains a = true ↔ a ∈ l := by
  unfold List.contains
  exact List.elem_iff

theorem mem_BUCKETS_ne_empty : ∀ b ∈ BUCKETS, b ≠ "" := by decide

theorem BUCKETS_nodup : BUCKETS.Nodup := by decide

theorem map_role_to_bucket_mem (role : String)
    (h : map_role_to_bucket role ≠ "") : map_role_to_bucket role ∈ BUCKETS := by
  unfold map_role_to_bucket at *
  by_cases hr : pyLower (pynorm role) = ""
  · simp [hr] at h
  · simp only [hr, if_false] at *
    cases hf : BUCKET_RULES.find?
        (fun bk => bk.2.any (fun k => pyInS k (pyLower (pynorm role)))) with
    | none => simp [hf] at h
    | some bk =>
      simp only [hf]
      have hm := List.mem_of_find?_eq_some hf
      have hall : ∀ x ∈ BUCKET_RULES, x.1 ∈ BUCKETS := by decide
      exact hall bk hm

/-- A leader is a candidate for bucket `b` when its normalized name and
effective role are non-empty and the role classifies to `b`; this is the
condition under which `_leaders_to_management` considers it for `b`. -/
def ltmCand (b : String) (l : Leader) : Bool :=
  !(pynorm l.name == "") &&
  !(orS (pynorm l.role) (pynorm l.designation) == "") &&
  (map_role_to_bucket (orS (pynorm l.role) (pynorm l.designation)) == b)

theorem ltmCand_eq_true_iff (b : String) (l : Leader) :
    ltmCand b l = true ↔
      (pynorm l.name == "") = false ∧
      (orS (pynorm l.role) (pynorm l.designation) == "") = false ∧
      map_role_to_bucket (orS (pynorm l.role) (pynorm l.designation)) = b := by
  unfold ltmCand
  rw [Bool.and_eq_true, Bool.and_eq_true]
  constructor
  · rintro ⟨⟨hn, hr⟩, hmap⟩
    exact ⟨by simpa using hn, by simpa using hr, by simpa using hmap⟩
  · rintro ⟨hn, hr, hmap⟩
    exact ⟨⟨by simp [hn], by simp [hr]⟩, by simp [hmap]⟩

theorem mem_of_nodup_card_five (seen : List String) (hnd : seen.Nodup)
    (hsub : ∀ s ∈ seen, s ∈ BUCKETS) (hlen : 5 ≤ seen.length) :
    ∀ b ∈ BUCKETS, b ∈ seen := by
  intro b hb
  have h1 : seen.toFinset ⊆ BUCKETS.toFinset := by
    intro x hx
    rw [List.mem_toFinset] at *
    exact hsub x hx
  have h2 : BUCKETS.toFinset.card ≤ seen.toFinset.card := by
    have hc : seen.toFinset.card = seen.length := List.toFinset_card_of_nodup hnd
    have hbc : BUCKETS.toFinset.card = 5 := by decide
    omega
  have heq := Finset.eq_of_subset_of_card_le h1 h2
  have : b ∈ BUCKETS.toFinset := List.mem_toFinset.mpr hb
  rw [← heq] at this
  exact List.mem_toFinset.mp this

/-- Characterization of the `_leaders_to_management` loop: a bucket
already in `seen_buckets` keeps its entry; otherwise it receives the
first candidate (in input order) classifying to it, if any. -/
theorem ltmGo_get (email : String) (ls : List Leader) :
    ∀ (m : Mgmt) (seen : List String), mgmtKeys m = BUCKETS → seen.Nodup →
    (∀ s ∈ seen, s ∈ BUCKETS) → ∀ b ∈ BUCKETS,
    mgmtGet (ltmGo email ls m seen) b =
      if b ∈ seen then mgmtGet m b
      else
        match ls.find? (ltmCand b) with
        | some l => ltmEntry b email l (mgmtGet m b)
        | none => mgmtGet m b := by
  induction ls with
  | nil =>
    intro m seen hkeys hnd hsub b hb
    simp only [ltmGo, List.find?_nil]
    split <;> rfl
  | cons l t ih =>
    intro m seen hkeys hnd hsub b hb
    simp only [ltmGo]
    by_cases h1 : (pynorm l.name == "" || orS (pynorm l.role) (pynorm l.designation) == "") = true
    · rw [if_pos h1]
      have hc : ¬ (ltmCand b l = true) := by
        rw [ltmCand_eq_true_iff]
        rintro ⟨hn, hr, -⟩
        rw [Bool.or_eq_true] at h1
        rcases h1 with h | h
        · rw [h] at hn; cases hn
        · rw [h] at hr; cases hr
      rw [List.find?_cons_of_neg _ hc]
      exact ih m seen hkeys hnd hsub b hb
    · rw [if_neg h1]
      have h1' := bool_eq_false _ h1
      have hn : (pynorm l.name == "") = false := by
        cases hx : (pynorm l.name == "") with
        | false => rfl
        | true => rw [hx] at h1'; simp at h1'
      have hr : (orS (pynorm l.role) (pynorm l.designation) == "") = false := by
        cases hx : (orS (pynorm l.role) (pynorm l.designation) == "") with
        | false => rfl
        | true => rw [hx] at h1'; simp at h1'
      by_cases h2 : (map_role_to_bucket (orS (pynorm l.role) (pynorm l.designation)) == "") = true
      · rw [if_pos h2]
        have hc : ¬ (ltmCand b l = true) := by
          rw [ltmCand_eq_true_iff]
          rintro ⟨-, -, hmap⟩
          have hz : map_role_to_bucket (orS (pynorm l.role) (pynorm l.designation)) = "" := by
            simpa using h2
          exact mem_BUCKETS_ne_empty b hb (by rw [← hmap, hz])
        rw [List.find?_cons_of_neg _ hc]
        exact ih m seen hkeys hnd hsub b hb
      · rw [if_neg h2]
        set bk := map_role_to_bucket (orS (pynorm l.role) (pynorm l.designation)) with hbk
        have hbkne : bk ≠ "" := by
          intro hz
          exact h2 (by rw [← hz]; simp)
        have hbkmem : bk ∈ BUCKETS := map_role_to_bucket_mem _ hbkne
        by_cases h3 : (seen.contains bk) = true
        · rw [if_pos h3]
          have hbkseen : bk ∈ seen := (contains_iff_mem_str seen bk).mp h3
          by_cases hb4 : b = bk
          · have hbin : b ∈ seen := by rw [hb4]; exact hbkseen
            rw [ih m seen hkeys hnd hsub b hb, if_pos hbin, if_pos hbin]
          · have hc : ¬ (ltmCand b l = true) := by
              rw [ltmCand_eq_true_iff]
              rintro ⟨-, -, hmap⟩
              exact hb4 (by rw [← hmap, ← hbk])
            rw [List.find?_cons_of_neg _ hc]
            exact ih m seen hkeys hnd hsub b hb
        · rw [if_neg h3]
          have hbkfresh : bk ∉ seen := by
            intro hmem
            exact h3 ((contains_iff_mem_str seen bk).mpr hmem)
          have hcand : ltmCand bk l = true := by
            rw [ltmCand_eq_true_iff]
            exact ⟨hn, hr, hbk.symm⟩
          by_cases h5 : 5 ≤ (bk :: seen).length
          · rw [if_pos h5]
            by_cases hbs : b ∈ seen
            · rw [if_pos hbs]
              have hne : b ≠ bk := by
                intro hz; rw [hz] at hbs; exact hbkfresh hbs
              exact mgmtGet_set_ne m bk b _ hne
            · rw [if_neg hbs]
              by_cases hb4 : b = bk
              · have hfind : (l :: t).find? (ltmCand b) = some l :=
                  List.find?_cons_of_pos _ (by rw [hb4]; exact hcand)
                rw [hfind]
                have hgoal := mgmtGet_set_self m bk (ltmEntry bk email l)
                  (by rw [hkeys]; exact hbkmem)
                rw [hb4]
                exact hgoal
              · exfalso
                have hall := mem_of_nodup_card_five (bk :: seen)
                  (List.nodup_cons.mpr ⟨hbkfresh, hnd⟩)
                  (by
                    intro s hs
                    rcases List.mem_cons.mp hs with h | h
                    · rw [h]; exact hbkmem
                    · exact hsub s h)
                  h5 b hb
                rcases List.mem_cons.mp hall with h | h
                · exact hb4 h
                · exact hbs h
          · rw [if_neg h5]
            have ihr := ih (mgmtSet m bk (ltmEntry bk email l)) (bk :: seen)
              (by rw [mgmtSet_keys]; exact hkeys)
              (List.nodup_cons.mpr ⟨hbkfresh, hnd⟩)
              (by
                intro s hs
                rcases List.mem_cons.mp hs with h | h
                · rw [h]; exact hbkmem
                · exact hsub s h)
              b hb
            rw [ihr]
            by_cases hb4 : b = bk
            · have hbin : b ∈ bk :: seen := by rw [hb4]; exact List.mem_cons_self bk seen
              rw [if_pos hbin]
              have hbs : b ∉ seen := by
                rw [hb4]; exact hbkfresh
              rw [if_neg hbs]
              have hfind : (l :: t).find? (ltmCand b) = some l :=
                List.find?_cons_of_pos _ (by rw [hb4]; exact hcand)
              rw [hfind, hb4]
              exact mgmtGet_set_self m bk (ltmEntry bk email l)
                (by rw [hkeys]; exact hbkmem)
            · by_cases hbs : b ∈ seen
              · have hbin : b ∈ bk :: seen := List.mem_cons_of_mem bk hbs
                rw [if_pos hbin, if_pos hbs]
                exact mgmtGet_set_ne m bk b _ hb4
              · have hbin : b ∉ bk :: seen := by
                  intro hz
                  rcases List.mem_cons.mp hz with h | h
                  · exact hb4 h
                  · exact hbs h
                rw [if_neg hbin, if_neg hbs]
                have hc : ¬ (ltmCand b l = true) := by
                  rw [ltmCand_eq_true_iff]
                  rintro ⟨-, -, hmap⟩
                  exact hb4 (by rw [← hmap, ← hbk])
                rw [List.find?_cons_of_neg _ hc]
                rw [mgmtGet_set_ne m bk b _ hb4]

/-- Python `str.strip()` on a string value. -/
def pyStripS (s : String) : String := ⟨pyStrip s.data⟩

/-- One entry of case 1's management map (`_empty_case2_management` of
agent_logic_case1.py builds dicts with exactly name and designation). -/
structure CEntry where
  name : String := ""
  designation : String := ""
deriving DecidableEq, Repr

abbrev Mgmt2 := List (String × CEntry)

/-- `_empty_case2_management` of agent_logic_case1.py. -/
def empty_case2_management : Mgmt2 := BUCKETS.map (fun b => (b, ({} : CEntry)))

def mgmt2Get (m : Mgmt2) (b : String) : CEntry :=
  ((m.find? (fun p => p.1 == b)).map (·.2)).getD {}

/-- `out[b]["name"] = name; out[b]["designation"] = role`. -/
def mgmt2Set (m : Mgmt2) (b : String) (name desig : String) : Mgmt2 :=
  m.map (fun p => if p.1 == b then (p.1, ⟨name, desig⟩) else p)

/-- `bucket_rules` of `_normalize_case2_leaders_to_buckets`
(agent_logic_case1.py): a dict, iterated in insertion order. -/
def CASE1_BUCKET_RULES : List (String × List String) :=
  [("Executive Leadership",
    ["ceo", "chief executive", "founder", "co-founder", "cofounder",
     "managing director", "chairman", "chairperson", "president",
     "director", "md", "executive director", "principal", "partner",
     "owner", "proprietor", "executive vice president", "evp"]),
   ("Technology / Operations",
    ["cto", "cio", "coo", "chief technology", "chief information",
     "chief operating", "technology", "operations", "technical",
     "engineering", "it head", "head of technology", "head of operations"]),
   ("Finance / Administration",
    ["cfo", "chief financial", "finance", "accounts", "admin",
     "administration", "hr", "human resources", "controller",
     "treasurer", "head of finance", "head of hr"]),
   ("Business Development / Growth",
    ["cro", "chief revenue officer", "chief revenue",
     "business development", "sales", "growth", "revenue",
     "commercial", "bd", "strategy", "head of sales", "head of bd"]),
   ("Marketing / Branding",
    ["cmo", "chief marketing", "marketing", "brand",
     "communications", "pr", "digital", "head of marketing"])]

/-- One iteration of `_normalize_case2_leaders_to_buckets`'s loop over
the leaders (agent_logic_case1.py lines 203–236).  The inner loop over
the rule dict fills the first still-unfilled bucket one of whose
keywords occurs in the lowercased role; when nothing matched, the
fallback puts a candidate with a non-empty role into Executive
Leadership provided no bucket is filled yet.  (Non-dict list items are
skipped by the source and are absent from the embedded list, whose
`Leader` fields carry the results of `.get(...) or ...`.) -/
def c1Step (out : Mgmt2) (l : Leader) : Mgmt2 :=
  let name := pyStripS l.name
  let role := pyStripS (orS l.role l.designation)
  if name == "" then out
  else
    let role_lower := if role == "" then "" else pyLower role
    match CASE1_BUCKET_RULES.find? (fun bk =>
        ((mgmt2Get out bk.1).name == "") &&
        !(role_lower == "") &&
        bk.2.any (fun k => pyInS k role_lower)) with
    | some bk => mgmt2Set out bk.1 name role
    | none =>
      if !(role == "") && !(BUCKETS.any (fun b => !((mgmt2Get out b).name == ""))) then
        mgmt2Set out "Executive Leadership" name role
      else out

/-- `_normalize_case2_leaders_to_buckets` of agent_logic_case1.py. -/
def normalize_case2_leaders_to_buckets (leaders : List Leader) : Mgmt2 :=
  leaders.foldl c1Step empty_case2_management

theorem mgmt2Get_cons (p : String × CEntry) (t : Mgmt2) (b : String) :
    mgmt2Get (p :: t) b = if p.1 == b then p.2 else mgmt2Get t b := by
  by_cases h : (p.1 == b) = true
  · simp [mgmt2Get, List.find?_cons, h]
  · rw [Bool.not_eq_true] at h
    simp [mgmt2Get, List.find?_cons, h]

theorem mgmt2Get_set_ne (m : Mgmt2) (b b' : String) (name desig : String)
    (h : b' ≠ b) : mgmt2Get (mgmt2Set m b name desig) b' = mgmt2Get m b' := by
  induction m with
  | nil => rfl
  | cons p t ih =>
    show mgmt2Get ((if p.1 == b then (p.1, ⟨name, desig⟩) else p) :: mgmt2Set t b name desig) b' = _
    by_cases hp : (p.1 == b) = true
    · have hpeq : p.1 = b := by simpa using hp
      have hp' : (p.1 == b') = false := by
        simp [hpeq]
        intro hc; exact h hc.symm
      rw [if_pos hp, mgmt2Get_cons, mgmt2Get_cons]
      simp only [hp', if_false]
      exact ih
    · rw [Bool.not_eq_true] at hp
      rw [if_neg (by simp [hp]), mgmt2Get_cons, mgmt2Get_cons]
      by_cases hq : (p.1 == b') = true
      · simp [hq]
      · rw [Bool.not_eq_true] at hq
        simp [hq, ih]

theorem c1Step_preserves_filled (out : Mgmt2) (l : Leader) (b : String)
    (hb : b ∈ BUCKETS) (hf : (mgmt2Get out b).name ≠ "") :
    mgmt2Get (c1Step out l) b = mgmt2Get out b := by
  unfold c1Step
  dsimp only
  split
  · rfl
  · split
    · rename_i bk heq
      have hp := List.find?_some heq
      rw [Bool.and_eq_true, Bool.and_eq_true] at hp
      have hone : (mgmt2Get out bk.1).name = "" := by simpa using hp.1.1
      have hne : b ≠ bk.1 := by
        intro hz
        rw [← hz] at hone
        exact hf hone
      exact mgmt2Get_set_ne out bk.1 b _ _ hne
    · split
      · rename_i hcond
        exfalso
        rw [Bool.and_eq_true] at hcond
        have hany : BUCKETS.any (fun x => !((mgmt2Get out x).name == "")) = true := by
          rw [List.any_eq_true]
          exact ⟨b, hb, by simpa using hf⟩
        rw [hany] at hcond
        simpa using hcond.2
      · rfl

theorem foldl_c1Step_preserves (ls : List Leader) :
    ∀ (out : Mgmt2) (b : String), b ∈ BUCKETS → (mgmt2Get out b).name ≠ "" →
    mgmt2Get (ls.foldl c1Step out) b = mgmt2Get out b := by
  induction ls with
  | nil => intro out b hb hf; rfl
  | cons l rest ih =>
    intro out b hb hf
    rw [List.foldl_cons]
    have hstep := c1Step_preserves_filled out l b hb hf
    rw [ih (c1Step out l) b hb (by rw [hstep]; exact hf), hstep]

/-- C2 counterexample, against `_normalize_case2_leaders_to_buckets`
(agent_logic_case1.py), the claim's second cited source.  (1)+(2): the
validated role "Head of Legal" matches no keyword of any rule, yet the
fallback places that candidate into Executive Leadership — so the first
candidate actually mapping to that category ("Chetan Desai", "Chief
Executive Officer") does not win it and is in fact dropped.  (3)+(4):
"Sales Director" first-matches the Executive Leadership rule (keyword
"director"); with Executive already filled the claim says the candidate
is skipped, but the code cascades it into Technology / Operations
(keyword "cto" occurs inside "director") instead. -/
theorem C2_counterexample_case1_fallback_cascade :
    (CASE1_BUCKET_RULES.all (fun bk =>
      bk.2.all (fun k => !pyInS k (pyLower "Head of Legal")))) = true ∧
    mgmt2Get (normalize_case2_leaders_to_buckets
      [⟨"Asha Bhat", "Head of Legal", ""⟩,
       ⟨"Chetan Desai", "Chief Executive Officer", ""⟩])
      "Executive Leadership" = ⟨"Asha Bhat", "Head of Legal"⟩ ∧
    (CASE1_BUCKET_RULES.find? (fun bk =>
      bk.2.any (fun k => pyInS k (pyLower "Sales Director")))).map Prod.fst =
      some "Executive Leadership" ∧
    mgmt2Get (normalize_case2_leaders_to_buckets
      [⟨"Asha Bhat", "Managing Director", ""⟩,
       ⟨"Chetan Desai", "Sales Director", ""⟩])
      "Technology / Operations" = ⟨"Chetan Desai", "Sales Director"⟩ := by
  refine ⟨by decide, by decide, by decide, by decide⟩

/-- C2 amended: in the Case-2 agent's `_leaders_to_management` the claim
holds in full — each of the five buckets receives exactly the first
candidate (in input order, which is highest-confidence-first) whose
non-empty role classifies to it, every later candidate mapping to a
filled bucket is skipped, and at most one leader is assigned per
category.  In case 1's `_normalize_case2_leaders_to_buckets` only the
at-most-one-per-category half survives: a bucket, once filled, is never
overwritten by later candidates — but the winner need not be the first
candidate mapping to that category (the no-match fallback can seat an
unmatched-role candidate in Executive Leadership), and a candidate
whose first-matching category is filled may cascade into a later
matching category instead of being skipped. -/
theorem C2_amended_bucket_assignment :
    (∀ (leaders : List Leader) (email b : String), b ∈ BUCKETS →
      mgmtGet (leaders_to_management leaders email) b =
        match leaders.find? (ltmCand b) with
        | some l => ltmEntry b email l ({} : Entry)
        | none => ({} : Entry)) ∧
    (∀ (leaders1 leaders2 : List Leader) (b : String), b ∈ BUCKETS →
      (mgmt2Get (normalize_case2_leaders_to_buckets leaders1) b).name ≠ "" →
      mgmt2Get (normalize_case2_leaders_to_buckets (leaders1 ++ leaders2)) b =
        mgmt2Get (normalize_case2_leaders_to_buckets leaders1) b) := by
  constructor
  · intro leaders email b hb
    have h := ltmGo_get email leaders empty_management []
      empty_management_keys List.nodup_nil (by intro s hs; cases hs) b hb
    unfold leaders_to_management
    rw [h, if_neg (by intro hz; cases hz), mgmtGet_empty_management]
  · intro l1 l2 b hb hf
    unfold normalize_case2_leaders_to_buckets at *
    rw [List.foldl_append]
    exact foldl_c1Step_preserves l2 _ b hb hf

/-- Regex token: literal character (compared case-insensitively, `re.I`),
`\s+`, or `\w+`. -/
inductive RTok where
  | lit (c : Char)
  | wsPlus
  | wordPlus
deriving Repr

/-- All suffixes reachable by consuming one or more characters
satisfying `p` (the nondeterministic semantics of `p+`). -/
def plusSuffixes (p : Char → Bool) : List Char → List (List Char)
  | [] => []
  | c :: cs => if p c then cs :: plusSuffixes p cs else []

/-- Nondeterministic matcher: all remainders after matching the token
list against a prefix of `s`. -/
def matchToks : List RTok → List Char → List (List Char)
  | [], s => [s]
  | .lit _ :: _, [] => []
  | .lit c :: ps, x :: xs => if x.toLower == c then matchToks ps xs else []
  | .wsPlus :: ps, s => ((plusSuffixes isSpaceChar s).map (fun r => matchToks ps r)).flatten
  | .wordPlus :: ps, s => ((plusSuffixes isWordChar s).map (fun r => matchToks ps r)).flatten

/-- Word boundary after a match: end of string or a non-word character.
(Every alternative below starts and ends with a word character, so this
plus a non-word predecessor is exactly `\b...\b`.) -/
def boundaryOk : List Char → Bool
  | [] => true
  | c :: _ => !isWordChar c

def matchAltAt (alt : List RTok) (s : List Char) : Bool :=
  (matchToks alt s).any boundaryOk

/-- `re.search` for an alternation of `\b`-wrapped alternatives: try a
match at every position whose predecessor is not a word character. -/
def reSearchAux (alts : List (List RTok)) : Bool → List Char → Bool
  | _, [] => false
  | prevWord, c :: cs =>
    ((!prevWord) && alts.any (fun a => matchAltAt a (c :: cs))) ||
      reSearchAux alts (isWordChar c) cs

def reSearch (alts : List (List RTok)) (s : List Char) : Bool :=
  reSearchAux alts false s

def rlit (w : String) : List RTok := w.data.map RTok.lit

/-- `EXEC_RE` of scraper_case2.py (the `co-?founder` alternative is
expanded into its two concrete forms). -/
def EXEC_RE_ALTS : List (List RTok) :=
  [rlit "ceo", rlit "coo", rlit "cto", rlit "cfo", rlit "cmo", rlit "cro",
   rlit "chief" ++ [RTok.wsPlus, RTok.wordPlus, RTok.wsPlus] ++ rlit "officer",
   rlit "managing" ++ [RTok.wsPlus] ++ rlit "director",
   rlit "founder", rlit "cofounder", rlit "co-founder",
   rlit "chairman", rlit "president", rlit "director",
   rlit "vice" ++ [RTok.wsPlus] ++ rlit "president",
   rlit "vp", rlit "head" ++ [RTok.wsPlus] ++ rlit "of",
   rlit "executive", rlit "partner", rlit "owner", rlit "principal"]

def execReSearch (s : List Char) : Bool := reSearch EXEC_RE_ALTS s

def TITLE_PREFIXES : List String := ["mr", "mrs", "ms", "dr", "prof", "sir"]

/-- One alternative of the title-stripping regex
`^(mr|mrs|ms|dr|prof|sir)\.?\s+` (case-insensitive): prefix, optional
dot, then at least one whitespace character, all removed. -/
def stripTitleOne (t s : List Char) : Option (List Char) :=
  if t.isPrefixOf (s.map Char.toLower) then
    let rest := s.drop t.length
    let rest2 := match rest with
      | '.' :: r => r
      | r => r
    match rest2 with
    | c :: _ => if isSpaceChar c then some (rest2.dropWhile isSpaceChar) else none
    | [] => none
  else none

def stripTitle (s : List Char) : List Char :=
  (TITLE_PREFIXES.findSome? (fun t => stripTitleOne t.data s)).getD s

def firstCharUpper : List (List Char) → Bool
  | (c :: _) :: _ => c.isUpper
  | _ => false

/-- Non-overlapping count of `"..."`, Python `role.count("...")`. -/
def countDots : List Char → Nat
  | '.' :: '.' :: '.' :: rest => countDots rest + 1
  | _ :: rest => countDots rest
  | [] => 0

def BAD_NAME_KEYWORDS : List String :=
  ["tally", "software", "solution", "dealer", "pvt", "ltd", "inc",
   "www", "http", "privacy", "terms", "cookie", "login", "signup"]

/-- `_looks_like_person_name` of scraper_case2.py. -/
def looks_like_person_name (name0 : String) : Bool :=
  let n : List Char := (pynorm name0).data
  if ¬ (5 ≤ n.length ∧ n.length ≤ 60) then false
  else
    let n2 := stripTitle n
    let low := n2.map Char.toLower
    if BAD_NAME_KEYWORDS.any (fun b => hasSub low b.data) then false
    else
      let words := (splitWsAux [] n2).filter (fun w => 1 < w.length)
      if ¬ (2 ≤ words.length ∧ words.length ≤ 5) then false
      else if !(firstCharUpper words) then false
      else if !(n2.any (fun c => ['a','e','i','o','u','A','E','I','O','U'].contains c)) then false
      else if 2 < (n2.filter Char.isDigit).length then false
      else if 2 < (n2.filter (fun c =>
          !c.isAlphanum && !(c = ' ' || c = '-' || c = '.' || c = '\''))).length then false
      else true

def BAD_ROLE_KEYWORDS : List String := ["tally", "prime", "dealer", "solution"]

/-- `_looks_like_role` of scraper_case2.py. -/
def looks_like_role (role0 : String) : Bool :=
  let r : List Char := (pynorm role0).data
  if ¬ (5 ≤ r.length ∧ r.length ≤ 100) then false
  else
    let low := r.map Char.toLower
    if !(execReSearch r) then false
    else if BAD_ROLE_KEYWORDS.any (fun b => hasSub low b.data) then false
    else if hasSub r ['…'] then false
    else if 1 < countDots r then false
    else if 15 < (splitWsAux [] r).length then false
    else true

/-- The ordered rule table of `_categorize_role` of scraper_case2.py
(each rule is a `\b(...)\b` alternation searched in the lowercased
role; literal blanks match exactly one blank). -/
def CAT_RULES : List (String × List (List RTok)) :=
  [("Executive Leadership",
    [rlit "ceo", rlit "chief executive", rlit "founder",
     rlit "managing director", rlit "chairman", rlit "president"]),
   ("Technology / Operations",
    [rlit "coo", rlit "cto", rlit "chief operating", rlit "chief technology"]),
   ("Finance / Administration",
    [rlit "cfo", rlit "chief financial"]),
   ("Business Development / Growth",
    [rlit "cro", rlit "chief revenue", rlit "business development", rlit "sales"]),
   ("Marketing / Branding",
    [rlit "cmo", rlit "chief marketing"])]

/-- `_categorize_role` of scraper_case2.py: first matching rule in table
order, with `"Executive Leadership"` as the default when nothing
matches. -/
def categorize_role (role : String) : String :=
  let r := (pyLower role).data
  match CAT_RULES.find? (fun cr => reSearch cr.2 r) with
  | some cr => cr.1
  | none => "Executive Leadership"

/-- Python `min(a, b)` on numbers (returns `a` on ties). -/
def pyMin (a b : ℚ) : ℚ := if a ≤ b then a else b

/-- Python `max(a, b)` on numbers (returns `a` on ties). -/
def pyMax (a b : ℚ) : ℚ := if b ≤ a then a else b

/-- `CONF_THRESHOLD` of scraper_case2.py (0.40). -/
def CONF_THRESHOLD : ℚ := 2/5

/-- `_score_candidate` of scraper_case2.py, with the float literals
0.50, 0.40, 0.10, 0.06 as exact rationals. -/
def score_candidate (name role : String) (bonus : ℚ) : ℚ :=
  if !(looks_like_person_name name) then 0
  else if !(looks_like_role role) then 0
  else
    let s : ℚ := 1/2 + 2/5
    let roleLow := pyLower role
    let s2 :=
      if ["ceo", "founder", "chairman", "president"].any (fun w => pyInS w roleLow) then
        s + 1/10
      else if ["cto", "cfo", "coo", "cro", "cmo"].any (fun w => pyInS w roleLow) then
        s + 3/50
      else s
    pyMax 0 (pyMin 1 (s2 + bonus))

/-- `LeaderCandidate` of scraper_case2.py. -/
structure JLeader where
  name : String
  role : String
  confidence : ℚ
  source_url : String
  evidence : String
  method : String
  category : String
deriving DecidableEq, Repr

/-- `_process_jsonld` of scraper_case2.py: mutates `leaders` and `seen`,
returned here as a pair. -/
def process_jsonld (strF : JVal → String) (data : JVal) (leaders : List JLeader)
    (seen : List (String × String)) (url : String) :
    List JLeader × List (String × String) :=
  match data with
  | .jdict fs =>
    let dtype := pyLower (pyToStr strF (jGetD fs "@type" (.jstr "")))
    if pyInS "person" dtype then
      let name := pynorm (pyToStr strF (jGetD fs "name" (.jstr "")))
      let role := pynorm (pyToStr strF (jGetD fs "jobTitle" (.jstr "")))
      if looks_like_person_name name && looks_like_role role then
        let key := (pyLower name, pyLower role)
        if seen.contains key then (leaders, seen)
        else
          let conf := score_candidate name role (3/20)
          if CONF_THRESHOLD ≤ conf then
            (leaders ++ [⟨name, role, conf, url, "jsonld", "jsonld", categorize_role role⟩],
             key :: seen)
          else (leaders, key :: seen)
      else (leaders, seen)
    else (leaders, seen)
  | _ => (leaders, seen)

theorem pyMin_le_left (a b : ℚ) : pyMin a b ≤ a := by
  unfold pyMin
  split
  · exact le_refl a
  · exact le_of_not_le (by assumption)

theorem pyMax_ge_left (a b : ℚ) : a ≤ pyMax a b := by
  unfold pyMax
  split
  · exact le_refl a
  · exact le_of_not_le (by assumption)

theorem pyMax_le (h1 : a ≤ c) (h2 : b ≤ c) : pyMax a b ≤ c := by
  unfold pyMax
  split <;> assumption

/-- C3: `_score_candidate` always returns a confidence in the closed
interval [0, 1] (for every name, role and bonus), and every candidate
that `_process_jsonld` appends to the leaders list has confidence at
least the threshold 0.4 — candidates scoring below the threshold are
never emitted. -/
theorem C3_confidence_bounds :
    (∀ (name role : String) (bonus : ℚ),
      0 ≤ score_candidate name role bonus ∧ score_candidate name role bonus ≤ 1) ∧
    (∀ (strF : JVal → String) (data : JVal) (leaders : List JLeader)
        (seen : List (String × String)) (url : String) (c : JLeader),
      c ∈ (process_jsonld strF data leaders seen url).1 →
      c ∈ leaders ∨ CONF_THRESHOLD ≤ c.confidence) := by
  constructor
  · intro name role bonus
    unfold score_candidate
    split
    · norm_num
    · split
      · norm_num
      · exact ⟨pyMax_ge_left 0 _, pyMax_le (by norm_num) (pyMin_le_left 1 _)⟩
  · intro strF data leaders seen url c hc
    cases data with
    | jdict fs =>
      simp only [process_jsonld] at hc
      split at hc
      · split at hc
        · split at hc
          · exact Or.inl hc
          · split at hc
            · rcases List.mem_append.mp hc with h | h
              · exact Or.inl h
              · rcases List.mem_singleton.mp h with rfl
                rename_i hconf
                exact Or.inr hconf
            · exact Or.inl hc
        · exact Or.inl hc
      · exact Or.inl hc
    | jnull => exact Or.inl hc
    | jstr s => exact Or.inl hc
    | jlist l => exact Or.inl hc
    | jother tr => exact Or.inl hc

/-- Concrete structured-data person used to witness C3. -/
def c3data : JVal :=
  .jdict [("@type", .jstr "Person"), ("name", .jstr "Anita Verma"),
          ("jobTitle", .jstr "Chief Financial Officer")]

/-- The candidate `_process_jsonld` emits for `c3data`. -/
def c3cand : JLeader :=
  ⟨"Anita Verma", "Chief Financial Officer", 1, "https://example.com/about",
   "jsonld", "jsonld", "Finance / Administration"⟩

theorem c3_score_eq :
    score_candidate "Anita Verma" "Chief Financial Officer" (3/20) = 1 := by
  have hshape : score_candidate "Anita Verma" "Chief Financial Officer" (3/20) =
      pyMax 0 (pyMin 1 (1/2 + 2/5 + 3/20)) := rfl
  rw [hshape]
  norm_num [pyMin, pyMax]

theorem c3_run_shape (url : String) :
    process_jsonld (fun _ => "") c3data [] [] url =
      (if CONF_THRESHOLD ≤ score_candidate "Anita Verma" "Chief Financial Officer" (3/20)
       then ([⟨"Anita Verma", "Chief Financial Officer",
               score_candidate "Anita Verma" "Chief Financial Officer" (3/20), url,
               "jsonld", "jsonld", "Finance / Administration"⟩],
             [(pyLower "Anita Verma", pyLower "Chief Financial Officer")])
       else ([], [(pyLower "Anita Verma", pyLower "Chief Financial Officer")])) := rfl

theorem c3_run_eq :
    (process_jsonld (fun _ => "") c3data [] [] "https://example.com/about").1 = [c3cand] := by
  rw [c3_run_shape "https://example.com/about",
      if_pos (by rw [c3_score_eq]; norm_num [CONF_THRESHOLD])]
  show [(⟨"Anita Verma", "Chief Financial Officer",
          score_candidate "Anita Verma" "Chief Financial Officer" (3/20),
          "https://example.com/about", "jsonld", "jsonld",
          "Finance / Administration"⟩ : JLeader)] = [c3cand]
  rw [c3_score_eq]
  rfl

theorem C3_confidence_bounds_witness :
    (0 ≤ score_candidate "Anita Verma" "Chief Financial Officer" (3/20) ∧
     score_candidate "Anita Verma" "Chief Financial Officer" (3/20) ≤ 1) ∧
    (c3cand ∈ ([] : List JLeader) ∨ CONF_THRESHOLD ≤ c3cand.confidence) :=
  ⟨C3_confidence_bounds.1 "Anita Verma" "Chief Financial Officer" (3/20),
   C3_confidence_bounds.2 (fun _ => "") c3data [] [] "https://example.com/about" c3cand
     (by rw [c3_run_eq]; exact List.mem_singleton_self c3cand)⟩

/-- C7: the spec's concrete validation examples, checked against
`_looks_like_person_name`, `_looks_like_role`, and both role
classifiers (`_map_role_to_bucket` and `_categorize_role`). -/
theorem C7_validation_examples :
    looks_like_person_name "Tally Prime Software Solutions" = false ∧
    looks_like_person_name "Anita Verma" = true ∧
    looks_like_role "Lead Generation Specialist" = false ∧
    looks_like_role "Chief Financial Officer" = true ∧
    map_role_to_bucket "Chief Financial Officer" = "Finance / Administration" ∧
    categorize_role "Chief Financial Officer" = "Finance / Administration" := by
  refine ⟨by decide, by decide, by decide, by decide, by decide, by decide⟩

/-- C6 counterexample: "Partner" is a validated role (it passes
`_looks_like_role`) that matches none of `_categorize_role`'s five rule
patterns, yet `_categorize_role` classifies it as "Executive
Leadership" — one of the five categories — instead of leaving it
unclassified with no bucket as the claim states. -/
theorem C6_counterexample_default_bucket :
    looks_like_role "Partner" = true ∧
    CAT_RULES.all (fun cr => !reSearch cr.2 (pyLower "Partner").data) = true ∧
    categorize_role "Partner" = "Executive Leadership" ∧
    "Executive Leadership" ∈ BUCKETS := by decide

/-- C6 amended: both classifiers evaluate their ordered rule tables top
to bottom, first match winning, in the order Executive → Technology →
Finance → Business Development → Marketing.  In the agent-side
classifier `_map_role_to_bucket`, a role matching no rule yields the
empty bucket and `_leaders_to_management` places such a candidate in no
category (every filled bucket's designation classifies back to that
bucket).  The scraper-side `_categorize_role`, however, defaults
unmatched roles to "Executive Leadership" rather than leaving them
unclassified. -/
theorem C6_amended_unclassified :
    (∀ role : String,
      BUCKET_RULES.all (fun bk =>
        bk.2.all (fun k => !pyInS k (pyLower (pynorm role)))) = true →
      map_role_to_bucket role = "") ∧
    (∀ (leaders : List Leader) (email b : String), b ∈ BUCKETS →
      (mgmtGet (leaders_to_management leaders email) b).name ≠ "" →
      map_role_to_bucket
        (mgmtGet (leaders_to_management leaders email) b).designation = b) ∧
    (∀ role : String,
      CAT_RULES.all (fun cr => !reSearch cr.2 (pyLower role).data) = true →
      categorize_role role = "Executive Leadership") := by
  refine ⟨?_, ?_, ?_⟩
  · intro role h
    unfold map_role_to_bucket
    by_cases hr : pyLower (pynorm role) = ""
    · simp [hr]
    · simp only [hr, if_false]
      have hnone : BUCKET_RULES.find?
          (fun bk => bk.2.any (fun k => pyInS k (pyLower (pynorm role)))) = none := by
        apply List.find?_eq_none.mpr
        intro bk hbk
        rw [List.all_eq_true] at h
        have hall := h bk hbk
        rw [List.all_eq_true] at hall
        intro hany
        rw [List.any_eq_true] at hany
        rcases hany with ⟨k, hk, hpk⟩
        have := hall k hk
        rw [hpk] at this
        cases this
      simp only [hnone]
  · intro leaders email b hb hname
    have h := ltmGo_get email leaders empty_management []
      empty_management_keys List.nodup_nil (by intro s hs; cases hs) b hb
    unfold leaders_to_management at *
    rw [if_neg (by intro hz; cases hz), mgmtGet_empty_management] at h
    rw [h] at hname ⊢
    cases hf : leaders.find? (ltmCand b) with
    | none =>
      rw [hf] at hname
      exact absurd rfl hname
    | some l =>
      rw [hf] at hname
      have hcand := List.find?_some hf
      rw [ltmCand_eq_true_iff] at hcand
      have hdes : (ltmEntry b email l ({} : Entry)).designation =
          orS (pynorm l.role) (pynorm l.designation) := by
        unfold ltmEntry
        split <;> rfl
      show map_role_to_bucket (ltmEntry b email l ({} : Entry)).designation = b
      rw [hdes]
      exact hcand.2.2
  · intro role h
    unfold categorize_role
    have hnone : CAT_RULES.find? (fun cr => reSearch cr.2 (pyLower role).data) = none := by
      apply List.find?_eq_none.mpr
      intro cr hcr
      rw [List.all_eq_true] at h
      have hall := h cr hcr
      intro hx
      rw [hx] at hall
      cases hall
    simp only [hnone]

theorem C6_amended_unclassified_witness :
    map_role_to_bucket "Partner" = "" ∧
    map_role_to_bucket (mgmtGet (leaders_to_management
      [⟨"Anita Verma", "Chief Financial Officer", ""⟩] "")
      "Finance / Administration").designation = "Finance / Administration" ∧
    categorize_role "Partner" = "Executive Leadership" :=
  ⟨C6_amended_unclassified.1 "Partner" (by decide),
   C6_amended_unclassified.2.1 [⟨"Anita Verma", "Chief Financial Officer", ""⟩] ""
     "Finance / Administration" (by decide) (by decide),
   C6_amended_unclassified.2.2 "Partner" (by decide)⟩

theorem C2_amended_bucket_assignment_witness :
    (("Finance / Administration" ∈ BUCKETS) ∧
      mgmtGet (leaders_to_management
          [⟨"Anita Verma", "Chief Financial Officer", ""⟩,
           ⟨"Ravi Kumar", "Finance Head", ""⟩] "")
          "Finance / Administration" =
        (match ([⟨"Anita Verma", "Chief Financial Officer", ""⟩,
                 ⟨"Ravi Kumar", "Finance Head", ""⟩] : List Leader).find?
            (ltmCand "Finance / Administration") with
         | some l => ltmEntry "Finance / Administration" "" l ({} : Entry)
         | none => ({} : Entry))) ∧
    (("Executive Leadership" ∈ BUCKETS) ∧
      (mgmt2Get (normalize_case2_leaders_to_buckets
        [⟨"Asha Bhat", "Managing Director", ""⟩]) "Executive Leadership").name ≠ "" ∧
      mgmt2Get (normalize_case2_leaders_to_buckets
          ([⟨"Asha Bhat", "Managing Director", ""⟩] ++
           [⟨"Chetan Desai", "Chief Executive Officer", ""⟩])) "Executive Leadership" =
        mgmt2Get (normalize_case2_leaders_to_buckets
          [⟨"Asha Bhat", "Managing Director", ""⟩]) "Executive Leadership") :=
  ⟨⟨by decide,
    C2_amended_bucket_assignment.1
      [⟨"Anita Verma", "Chief Financial Officer", ""⟩,
       ⟨"Ravi Kumar", "Finance Head", ""⟩] "" "Finance / Administration" (by decide)⟩,
   ⟨by decide, by decide,
    C2_amended_bucket_assignment.2 [⟨"Asha Bhat", "Managing Director", ""⟩]
      [⟨"Chetan Desai", "Chief Executive Officer", ""⟩] "Executive Leadership"
      (by decide) (by decide)⟩⟩

/-- Outcome of one underlying fetch: the `(html, status, code)` triple
returned by `RequestsFetcher.get` / `SeleniumFetcher.get`. -/
structure FetchRes where
  html : Option String
  status : String
  code : Int
deriving DecidableEq, Repr

/-- `USE_SELENIUM_FALLBACK` of scraper_case2.py. -/
def USE_SELENIUM_FALLBACK : Bool := true

/-- One call to `SmartFetcher.get`: its `force_selenium` argument plus
the outcomes the two underlying fetchers would produce for this URL. -/
structure FetchStep where
  force_selenium : Bool
  reqRes : FetchRes
  selRes : FetchRes
deriving DecidableEq, Repr

/-- `SmartFetcher.get` of scraper_case2.py as a state transformer on the
`selenium_active` flag; returns the result, whether the Selenium path
was used, and the flag afterwards.  `selAvail` is `SELENIUM_AVAILABLE`
(import-dependent). -/
def smartGet (selAvail : Bool) (selenium_active : Bool) (step : FetchStep) :
    FetchRes × Bool × Bool :=
  if step.force_selenium || selenium_active then (step.selRes, true, selenium_active)
  else if step.reqRes.html.isSome then (step.reqRes, false, selenium_active)
  else if step.reqRes.status == "blocked" && USE_SELENIUM_FALLBACK && selAvail then
    (step.selRes, true, true)
  else (step.reqRes, false, selenium_active)

/-- Record of one `SmartFetcher.get` call. -/
structure FetchRec where
  usedSelenium : Bool
  activeAfter : Bool
deriving DecidableEq, Repr

/-- A sequence of `SmartFetcher.get` calls through one fetcher instance
(one company's run), threading the `selenium_active` flag. -/
def runFetches (selAvail : Bool) : Bool → List FetchStep → List FetchRec
  | _, [] => []
  | st, step :: rest =>
    let r := smartGet selAvail st step
    ⟨r.2.1, r.2.2⟩ :: runFetches selAvail r.2.2 rest

theorem smartGet_active (selAvail : Bool) (step : FetchStep) :
    smartGet selAvail true step = (step.selRes, true, true) := by
  unfold smartGet
  rw [Bool.or_true]
  rfl

theorem runFetches_active (selAvail : Bool) (steps : List FetchStep) :
    ∀ r ∈ runFetches selAvail true steps,
      r.usedSelenium = true ∧ r.activeAfter = true := by
  induction steps with
  | nil => intro r hr; cases hr
  | cons s rest ih =>
    intro r hr
    simp only [runFetches, smartGet_active] at hr
    rcases List.mem_cons.mp hr with h | h
    · rw [h]; exact ⟨rfl, rfl⟩
    · exact ih r h

theorem runFetches_active_of_eq (selAvail : Bool) (st : Bool) (hst : st = true)
    (steps : List FetchStep) :
    ∀ r ∈ runFetches selAvail st steps,
      r.usedSelenium = true ∧ r.activeAfter = true := by
  subst hst
  exact runFetches_active selAvail steps

/-- C5: the fetch mode is sticky.  If the `selenium_active` flag is set
after some call (which happens exactly when that call, or an earlier
one, escalated on a blocked classification), then every later call
through the same `SmartFetcher` uses the Selenium path and leaves the
flag set — it never falls back to the plain HTTP path. -/
theorem C5_sticky_escalation (selAvail st : Bool) (steps : List FetchStep) (i j : Nat)
    (hij : i < j) (hj : j < (runFetches selAvail st steps).length)
    (hesc : ((runFetches selAvail st steps).get ⟨i, Nat.lt_trans hij hj⟩).activeAfter = true) :
    ((runFetches selAvail st steps).get ⟨j, hj⟩).usedSelenium = true ∧
    ((runFetches selAvail st steps).get ⟨j, hj⟩).activeAfter = true := by
  induction steps generalizing st i j with
  | nil => simp [runFetches] at hj
  | cons s rest ih =>
    rcases i with _ | k
    · rcases j with _ | m
      · exact absurd hij (by omega)
      · have hesc0 : (smartGet selAvail st s).2.2 = true := by
          simpa [runFetches] using hesc
        have hj' : m < (runFetches selAvail (smartGet selAvail st s).2.2 rest).length := by
          simpa [runFetches] using hj
        have hget : ((runFetches selAvail st (s :: rest)).get ⟨m + 1, hj⟩) =
            (runFetches selAvail (smartGet selAvail st s).2.2 rest).get ⟨m, hj'⟩ := by
          simp [runFetches]
        rw [hget]
        have hmem := List.get_mem
          (runFetches selAvail (smartGet selAvail st s).2.2 rest) m hj'
        exact runFetches_active_of_eq selAvail _ hesc0 rest _ hmem
    · rcases j with _ | m
      · exact absurd hij (by omega)
      · have hj' : m < (runFetches selAvail (smartGet selAvail st s).2.2 rest).length := by
          simpa [runFetches] using hj
        have hik : k < m := by omega
        have hesc' : ((runFetches selAvail (smartGet selAvail st s).2.2 rest).get
            ⟨k, Nat.lt_trans hik hj'⟩).activeAfter = true := by
          have hidx : ((runFetches selAvail st (s :: rest)).get
              ⟨k + 1, Nat.lt_trans hij hj⟩) =
              (runFetches selAvail (smartGet selAvail st s).2.2 rest).get
                ⟨k, Nat.lt_trans hik hj'⟩ := by
            simp [runFetches]
          rw [hidx] at hesc
          exact hesc
        have hget : ((runFetches selAvail st (s :: rest)).get ⟨m + 1, hj⟩) =
            (runFetches selAvail (smartGet selAvail st s).2.2 rest).get ⟨m, hj'⟩ := by
          simp [runFetches]
        rw [hget]
        exact ih _ k m hik hj' hesc'

/-- A concrete trace for C5: first fetch succeeds plain, second is
blocked and escalates, third would succeed plain but must use Selenium. -/
def c5steps : List FetchStep :=
  [⟨false, ⟨some "<html>team page</html>", "ok", 200⟩, ⟨some "<html>rendered</html>", "ok", 200⟩⟩,
   ⟨false, ⟨none, "blocked", 403⟩, ⟨some "<html>rendered</html>", "ok", 200⟩⟩,
   ⟨false, ⟨some "<html>plain ok</html>", "ok", 200⟩, ⟨some "<html>rendered</html>", "ok", 200⟩⟩]

theorem C5_sticky_escalation_witness :
    ((runFetches true false c5steps).get ⟨2, by decide⟩).usedSelenium = true ∧
    ((runFetches true false c5steps).get ⟨2, by decide⟩).activeAfter = true :=
  C5_sticky_escalation true false c5steps 1 2 (by omega) (by decide) (by decide)

/-- `AGENT_MAX_RETRIES` (config.py default 3). -/
def AGENT_MAX_RETRIES : Int := 3

/-- The dict returned by `Case2Agent._build_output`. -/
structure AgentOutput where
  case2_leaders : List Leader
  case2_email : String
  case2_management : Mgmt
  leadership_found : String
deriving DecidableEq, Repr

/-- `Case2Agent._build_output` of agent_logic_case2.py. -/
def build_output (jp : String → Option JVal) (strF : JVal → String)
    (payload : JVal) (email : String) (leaders : List Leader) : AgentOutput :=
  let mgmt := normalize_management_from_payload jp strF payload email
  ⟨leaders, pynorm email, mgmt,
   if leadership_found_strict mgmt then "Yes" else "No"⟩

/-- `Case2Agent._decide_next_action` of agent_logic_case2.py. -/
def decide_next_action (attempt max_retries : Int) (has_leaders : Bool)
    (error_type : String) : String :=
  if has_leaders then "SUCCESS"
  else if max_retries ≤ attempt then "SKIP"
  else if pyInS "timeout" (pyLower error_type) || pyInS "network" (pyLower error_type) then
    (if attempt < max_retries - 1 then "RETRY" else "TRY_ALTERNATE")
  else if pyInS "captcha" (pyLower error_type) || pyInS "blocked" (pyLower error_type) then
    "TRY_ALTERNATE"
  else if attempt = 0 then "TRY_ALTERNATE"
  else if attempt < max_retries - 1 then "RETRY" else "SKIP"

/-- The `_clean_leaders_list` argument in `scrape_with_agent`:
`payload.get("leaders_raw") or payload.get("all_leaders")` for a dict
payload, the payload itself otherwise. -/
def leadersArgMain (payload : JVal) : JVal :=
  match payload with
  | .jdict fs => pyOrJ (jGetD fs "leaders_raw" .jnull) (jGetD fs "all_leaders" .jnull)
  | v => v

/-- The `_clean_leaders_list` argument in `_try_alternate_urls`: only
`payload.get("leaders_raw")` for a dict payload. -/
def leadersArgAlt (payload : JVal) : JVal :=
  match payload with
  | .jdict fs => jGetD fs "leaders_raw" .jnull
  | v => v

/-- `Case2Agent._try_alternate_urls` of agent_logic_case2.py; the list
carries the outcome of `run_discovery_sync` for each alternate path
(exceptions are caught and skipped), and the first payload with a
non-empty cleaned leaders list is returned. -/
def try_alternate_urls (jp : String → Option JVal) (strF : JVal → String) :
    List (Except String (JVal × String)) → Option (JVal × String)
  | [] => none
  | .error _ :: rest => try_alternate_urls jp strF rest
  | .ok (p, e) :: rest =>
    if (clean_leaders_list jp strF (leadersArgAlt p) 5).isEmpty then
      try_alternate_urls jp strF rest
    else some (p, e)

/-- The attempt loop of `Case2Agent.scrape_with_agent`: `primary a` is
the outcome of `run_discovery_sync` on attempt `a` (an exception or a
payload/email pair), `alt a` the per-path outcomes of the alternate
pass on attempt `a`; the jittered sleeps are elided.  The list argument
is the remaining `range(1, AGENT_MAX_RETRIES + 1)` attempt numbers, and
the empty list is the post-loop `return self._build_output({}, "", [])`. -/
def scrapeGo (jp : String → Option JVal) (strF : JVal → String)
    (primary : Int → Except String (JVal × String))
    (alt : Int → List (Except String (JVal × String))) :
    List Int → AgentOutput
  | [] => build_output jp strF (.jdict []) "" []
  | a :: rest =>
    match primary a with
    | .error e =>
      let action := decide_next_action a AGENT_MAX_RETRIES false e
      if action = "SKIP" ∨ AGENT_MAX_RETRIES ≤ a then
        build_output jp strF (.jdict []) "" []
      else scrapeGo jp strF primary alt rest
    | .ok (payload, email) =>
      let leaders := clean_leaders_list jp strF (leadersArgMain payload) 5
      if !leaders.isEmpty then build_output jp strF payload email leaders
      else
        let action := decide_next_action a AGENT_MAX_RETRIES false "no_data"
        if action = "TRY_ALTERNATE" then
          match try_alternate_urls jp strF (alt a) with
          | some (ap, ae) =>
            let altLeaders := clean_leaders_list jp strF (leadersArgMain ap) 5
            if !altLeaders.isEmpty then build_output jp strF ap ae altLeaders
            else scrapeGo jp strF primary alt rest
          | none => scrapeGo jp strF primary alt rest
        else if action = "SKIP" then build_output jp strF (.jdict []) "" []
        else scrapeGo jp strF primary alt rest

/-- `Case2Agent.scrape_with_agent` of agent_logic_case2.py:
`for attempt in range(1, AGENT_MAX_RETRIES + 1)` is the list [1, 2, 3]. -/
def scrape_with_agent (jp : String → Option JVal) (strF : JVal → String)
    (primary : Int → Except String (JVal × String))
    (alt : Int → List (Except String (JVal × String))) : AgentOutput :=
  scrapeGo jp strF primary alt [1, 2, 3]

/-- The well-formed empty result: no leaders, all five buckets empty,
flag "No". -/
def emptyAgentOutput : AgentOutput := ⟨[], "", empty_management, "No"⟩

theorem build_output_empty (jp : String → Option JVal) (strF : JVal → String) :
    build_output jp strF (.jdict []) "" [] = emptyAgentOutput := rfl

theorem try_alternate_urls_none (jp : String → Option JVal) (strF : JVal → String)
    (outs : List (Except String (JVal × String)))
    (h : ∀ r ∈ outs, ∀ p e, r = .ok (p, e) →
      clean_leaders_list jp strF (leadersArgAlt p) 5 = []) :
    try_alternate_urls jp strF outs = none := by
  induction outs with
  | nil => rfl
  | cons o rest ih =>
    cases o with
    | error e =>
      simp only [try_alternate_urls]
      exact ih (fun r hr => h r (List.mem_cons_of_mem _ hr))
    | ok pe =>
      obtain ⟨p, e⟩ := pe
      simp only [try_alternate_urls]
      rw [h _ (List.mem_cons_self _ _) p e rfl]
      simp only [List.isEmpty_nil, if_true]
      exact ih (fun r hr => h r (List.mem_cons_of_mem _ hr))

/-- C4: when every attempt and every alternate-path pass yields no
valid candidate (or raises, which the loop catches), the agent returns
the well-formed empty result — all five buckets empty, flag "No" — and
no exception escapes the company's processing (the model is a total
function whose error branches feed back into the loop). -/
theorem C4_exhaustion_returns_empty (jp : String → Option JVal) (strF : JVal → String)
    (primary : Int → Except String (JVal × String))
    (alt : Int → List (Except String (JVal × String)))
    (h1 : ∀ a p e, primary a = .ok (p, e) →
      clean_leaders_list jp strF (leadersArgMain p) 5 = [])
    (h2 : ∀ a r, r ∈ alt a → ∀ p e, r = .ok (p, e) →
      clean_leaders_list jp strF (leadersArgAlt p) 5 = []) :
    scrape_with_agent jp strF primary alt = emptyAgentOutput ∧
    (∀ b ∈ BUCKETS, mgmtGet emptyAgentOutput.case2_management b = ({} : Entry)) := by
  constructor
  · have halt : ∀ a, try_alternate_urls jp strF (alt a) = none := fun a =>
      try_alternate_urls_none jp strF (alt a) (h2 a)
    have main : ∀ l : List Int, scrapeGo jp strF primary alt l = emptyAgentOutput := by
      intro l
      induction l with
      | nil => exact build_output_empty jp strF
      | cons a rest ih =>
        cases hpa : primary a with
        | error e =>
          simp only [scrapeGo, hpa]
          split
          · exact build_output_empty jp strF
          · exact ih
        | ok pe =>
          obtain ⟨p, e⟩ := pe
          have hcl := h1 a p e hpa
          simp only [scrapeGo, hpa, hcl]
          simp only [List.isEmpty_nil, Bool.not_true, Bool.false_eq_true, if_false]
          rw [halt a]
          split
          · exact ih
          · split
            · exact build_output_empty jp strF
            · exact ih
    exact main [1, 2, 3]
  · intro b hb
    exact mgmtGet_empty_management b

def c4primary : Int → Except String (JVal × String) := fun _ => .error "blocked"

def c4alt : Int → List (Except String (JVal × String)) := fun _ => []

theorem C4_exhaustion_returns_empty_witness :
    scrape_with_agent (fun _ => none) (fun _ => "") c4primary c4alt = emptyAgentOutput :=
  (C4_exhaustion_returns_empty (fun _ => none) (fun _ => "") c4primary c4alt
    (fun _ _ _ h => Except.noConfusion h)
    (fun _ r hr _ _ _ => absurd hr (List.not_mem_nil r))).1

/-- The dedupe loop of `scrape_company_leadership` (scraper_case2.py
lines 750–757): first occurrence per case-insensitive (name, role) pair
wins. -/
def dedupPairsGo : List JLeader → List (String × String) → List JLeader
  | [], _ => []
  | l :: ls, seen =>
    let key := (pyLower l.name, pyLower l.role)
    if seen.contains key then dedupPairsGo ls seen
    else l :: dedupPairsGo ls (key :: seen)

/-- Stable insertion for Python's
`final.sort(key=lambda x: x.confidence, reverse=True)`: an already
placed element stays ahead only when strictly more confident. -/
def insertDesc (x : JLeader) : List JLeader → List JLeader
  | [] => [x]
  | y :: ys =>
    if y.confidence ≤ x.confidence then x :: y :: ys else y :: insertDesc x ys

def sortByConfDesc (ls : List JLeader) : List JLeader := ls.foldr insertDesc []

/-- The final-list step of `scrape_company_leadership`: dedupe by
(name, role) pair, stable-sort by confidence descending, truncate to
`MAX_LEADERS = 5`. -/
def scraperFinalize (all_leaders : List JLeader) : List JLeader :=
  (sortByConfDesc (dedupPairsGo all_leaders [])).take 5

/-- `dataclasses.asdict` of a `LeaderCandidate`; the float confidence
is opaque to the string-cleaning step and modelled as `jother`. -/
def leaderToJ (l : JLeader) : JVal :=
  .jdict [("name", .jstr l.name), ("role", .jstr l.role), ("confidence", .jother true),
          ("source_url", .jstr l.source_url), ("evidence", .jstr l.evidence),
          ("method", .jstr l.method), ("category", .jstr l.category)]

/-- The company-level final candidate list: the scraper's finalized
`all_leaders` become the payload's `leaders_raw` and pass through the
agent's `_clean_leaders_list`. -/
def finalCandidateList (jp : String → Option JVal) (strF : JVal → String)
    (all_leaders : List JLeader) : List Leader :=
  clean_leaders_list jp strF (.jlist ((scraperFinalize all_leaders).map leaderToJ)) 5

/-- Same-name candidate from the earlier page, lower confidence. -/
def c8a : JLeader :=
  ⟨"John Smith", "Vice President", 9/10, "https://example.com/about",
   "e1", "card", "Executive Leadership"⟩

/-- Same-name candidate from a later page, higher confidence. -/
def c8b : JLeader :=
  ⟨"John Smith", "Founder", 1, "https://example.com/team",
   "e2", "card", "Executive Leadership"⟩

theorem c8_sort_eq : sortByConfDesc [c8a, c8b] = [c8b, c8a] := by
  show insertDesc c8a (insertDesc c8b []) = [c8b, c8a]
  show insertDesc c8a [c8b] = [c8b, c8a]
  unfold insertDesc
  rw [if_neg (by norm_num [c8a, c8b] : ¬ (c8b.confidence ≤ c8a.confidence))]
  rfl

theorem c8_finalize_eq : scraperFinalize [c8a, c8b] = [c8b, c8a] := by
  unfold scraperFinalize
  have hd : dedupPairsGo [c8a, c8b] [] = [c8a, c8b] := rfl
  rw [hd, c8_sort_eq]
  rfl

theorem c8_final_list_eq :
    finalCandidateList (fun _ => none) (fun _ => "") [c8a, c8b] =
      [⟨"John Smith", "Founder", ""⟩] := by
  unfold finalCandidateList
  rw [c8_finalize_eq]
  rfl

/-- C8 counterexample: two surviving candidates share the
case-insensitive name "John Smith" with different role texts.  The
scraper's own final list keeps BOTH (its dedupe key is the (name, role)
pair, not the name), sorted by confidence with the later-page,
higher-confidence occurrence first; the agent's name-dedupe then keeps
that higher-confidence occurrence ("Founder", from the later page) —
not the first occurrence in processing order ("Vice President", from
the earlier page) as the claim states. -/
theorem C8_counterexample_confidence_wins :
    scraperFinalize [c8a, c8b] = [c8b, c8a] ∧
    finalCandidateList (fun _ => none) (fun _ => "") [c8a, c8b] =
      [⟨"John Smith", "Founder", ""⟩] ∧
    (⟨"John Smith", "Founder", ""⟩ : Leader) ≠ ⟨"John Smith", "Vice President", ""⟩ :=
  ⟨c8_finalize_eq, c8_final_list_eq, by decide⟩

/-- The loop of `_clean_leaders_list` without its length cap, in spec
form: keep the first occurrence of each case-insensitive name, in
input order. -/
def cllSpec (strF : JVal → String) : List JVal → List String → List Leader
  | [], _ => []
  | it :: rest, seen =>
    match it with
    | .jdict fs =>
      let nm := pynormAny strF (jGetD fs "name" (.jstr ""))
      let rl := orS (pynormAny strF (jGetD fs "role" (.jstr "")))
                    (pynormAny strF (jGetD fs "designation" (.jstr "")))
      if nm == "" || rl == "" then cllSpec strF rest seen
      else if seen.contains (pyLower nm) then cllSpec strF rest seen
      else ⟨nm, rl, ""⟩ :: cllSpec strF rest (pyLower nm :: seen)
    | _ => cllSpec strF rest seen

theorem cllGo_eq_spec_take (strF : JVal → String) :
    ∀ (items : List JVal) (seen : List String) (cnt m : Int), cnt < m →
    cllGo strF items seen cnt m = (cllSpec strF items seen).take (m - cnt).toNat := by
  intro items
  induction items with
  | nil => intro seen cnt m h; simp [cllGo, cllSpec]
  | cons it rest ih =>
    intro seen cnt m h
    cases it with
    | jdict fs =>
      simp only [cllGo, cllSpec]
      by_cases h1 : (pynormAny strF (jGetD fs "name" (.jstr "")) == "" ||
          orS (pynormAny strF (jGetD fs "role" (.jstr "")))
              (pynormAny strF (jGetD fs "designation" (.jstr ""))) == "") = true
      · rw [if_pos h1, if_pos h1]
        exact ih seen cnt m h
      · rw [if_neg h1, if_neg h1]
        by_cases h2 : (seen.contains
            (pyLower (pynormAny strF (jGetD fs "name" (.jstr ""))))) = true
        · rw [if_pos h2, if_pos h2]
          exact ih seen cnt m h
        · rw [if_neg h2, if_neg h2]
          have htake : (m - cnt).toNat = (m - (cnt + 1)).toNat + 1 := by omega
          rw [htake, List.take_succ_cons]
          by_cases h3 : m ≤ cnt + 1
          · rw [if_pos h3]
            have hz : (m - (cnt + 1)).toNat = 0 := by omega
            rw [hz, List.take_zero]
          · rw [if_neg h3]
            rw [ih _ (cnt + 1) m (by omega)]
    | jnull => exact ih seen cnt m h
    | jstr s => exact ih seen cnt m h
    | jlist l => exact ih seen cnt m h
    | jother tr => exact ih seen cnt m h

theorem cllSpec_fresh_nodup (strF : JVal → String) :
    ∀ (items : List JVal) (seen : List String),
    (∀ l ∈ cllSpec strF items seen, pyLower l.name ∉ seen) ∧
    List.Pairwise (fun a b : Leader => pyLower a.name ≠ pyLower b.name)
      (cllSpec strF items seen) := by
  intro items
  induction items with
  | nil => intro seen; exact ⟨fun l hl => absurd hl (List.not_mem_nil l), List.Pairwise.nil⟩
  | cons it rest ih =>
    intro seen
    cases it with
    | jdict fs =>
      simp only [cllSpec]
      by_cases h1 : (pynormAny strF (jGetD fs "name" (.jstr "")) == "" ||
          orS (pynormAny strF (jGetD fs "role" (.jstr "")))
              (pynormAny strF (jGetD fs "designation" (.jstr ""))) == "") = true
      · rw [if_pos h1]; exact ih seen
      · rw [if_neg h1]
        by_cases h2 : (seen.contains
            (pyLower (pynormAny strF (jGetD fs "name" (.jstr ""))))) = true
        · rw [if_pos h2]; exact ih seen
        · rw [if_neg h2]
          have hfresh := (ih (pyLower (pynormAny strF (jGetD fs "name" (.jstr ""))) :: seen)).1
          have hpw := (ih (pyLower (pynormAny strF (jGetD fs "name" (.jstr ""))) :: seen)).2
          constructor
          · intro l hl hmem
            rcases List.mem_cons.mp hl with hh | hh
            · rw [hh] at hmem
              exact h2 ((contains_iff_mem_str _ _).mpr hmem)
            · exact hfresh l hh (List.mem_cons_of_mem _ hmem)
          · refine List.Pairwise.cons ?_ hpw
            intro l hl
            intro heq
            exact hfresh l hl (by rw [← heq]; exact List.mem_cons_self _ _)
    | jnull => exact ih seen
    | jstr s => exact ih seen
    | jlist l => exact ih seen
    | jother tr => exact ih seen

theorem dedupPairs_fresh_nodup :
    ∀ (ls : List JLeader) (seen : List (String × String)),
    (∀ x ∈ dedupPairsGo ls seen, (pyLower x.name, pyLower x.role) ∉ seen) ∧
    List.Pairwise (fun a b : JLeader =>
      (pyLower a.name, pyLower a.role) ≠ (pyLower b.name, pyLower b.role))
      (dedupPairsGo ls seen) := by
  intro ls
  induction ls with
  | nil => intro seen; exact ⟨fun x hx => absurd hx (List.not_mem_nil x), List.Pairwise.nil⟩
  | cons l rest ih =>
    intro seen
    simp only [dedupPairsGo]
    by_cases h1 : (seen.contains (pyLower l.name, pyLower l.role)) = true
    · rw [if_pos h1]; exact ih seen
    · rw [if_neg h1]
      have hfresh := (ih ((pyLower l.name, pyLower l.role) :: seen)).1
      have hpw := (ih ((pyLower l.name, pyLower l.role) :: seen)).2
      constructor
      · intro x hx hmem
        rcases List.mem_cons.mp hx with hh | hh
        · rw [hh] at hmem
          exact h1 ((pair_contains_iff_mem seen _).mpr hmem)
        · exact hfresh x hh (List.mem_cons_of_mem _ hmem)
      · refine List.Pairwise.cons ?_ hpw
        intro x hx heq
        exact hfresh x hx (by rw [← heq]; exact List.mem_cons_self _ _)

/-- C8 amended: deduplication by case-insensitive name happens in the
agent's `_clean_leaders_list`, which equals the spec-shaped
first-occurrence-per-name filter `cllSpec` (over ITS input order, which
is the scraper's confidence-descending order) truncated to the cap —
so the highest-confidence occurrence of a name wins, with page order
only breaking ties; output names are pairwise distinct
case-insensitively.  The scraper itself deduplicates by the
case-insensitive (name, role) PAIR, first occurrence winning. -/
theorem C8_amended_dedup (jp : String → Option JVal) (strF : JVal → String)
    (v : JVal) (m : Int) (ls : List JLeader) :
    clean_leaders_list jp strF v m =
      (cllSpec strF (match cllExtract jp v with | .jlist its => its | _ => []) []).take
        (if m ≤ 0 then (5:Int) else m).toNat ∧
    List.Pairwise (fun a b : Leader => pyLower a.name ≠ pyLower b.name)
      (clean_leaders_list jp strF v m) ∧
    List.Pairwise (fun a b : JLeader =>
      (pyLower a.name, pyLower a.role) ≠ (pyLower b.name, pyLower b.role))
      (dedupPairsGo ls []) := by
  have hpos : (0:Int) < (if m ≤ 0 then (5:Int) else m) := by
    split <;> omega
  have h1 : clean_leaders_list jp strF v m =
      (cllSpec strF (match cllExtract jp v with | .jlist its => its | _ => []) []).take
        (if m ≤ 0 then (5:Int) else m).toNat := by
    unfold clean_leaders_list
    cases hx : cllExtract jp v with
    | jlist items =>
      dsimp only
      rw [cllGo_eq_spec_take strF items [] 0 _ hpos]
      norm_num
    | jnull => simp [cllSpec]
    | jstr s => simp [cllSpec]
    | jdict fs => simp [cllSpec]
    | jother tr => simp [cllSpec]
  refine ⟨h1, ?_, (dedupPairs_fresh_nodup ls []).2⟩
  rw [h1]
  exact List.Pairwise.sublist (List.take_sublist _ _)
    ((cllSpec_fresh_nodup strF _ []).2)

/-- One row of the `cached_results` table.  `rid` is the autoincrement
primary key; rows appear in insertion order, so `ORDER BY id DESC
LIMIT 1` picks the last matching row. -/
structure CacheRow where
  rid : Nat
  cache_key : String
  result_type : String
  result_json : String
  created_at : String
deriving DecidableEq, Repr

/-- `CASE2_CACHE_TYPE` of db.py. -/
def CASE2_CACHE_TYPE : String := "case2_enrichment"

/-- The `SELECT ... WHERE cache_key = ? AND result_type = ? ORDER BY id
DESC LIMIT 1` of `get_case2_cache`. -/
def newestRow (store : List CacheRow) (key : String) : Option CacheRow :=
  (store.filter (fun r => r.cache_key == key && r.result_type == CASE2_CACHE_TYPE)).getLast?

/-- `get_case2_cache` of db.py.  `parseIso` is `_parse_iso` rendered as
seconds since the epoch (None on parse failure), `now` the current time
in seconds; the ttl is `timedelta(hours=max(1, int(ttl_hours or 72)))`.
The function only executes a SELECT, so the store is returned unchanged
alongside the result. -/
def get_case2_cache (jp : String → Option JVal) (parseIso : String → Option Int)
    (now : Int) (store : List CacheRow) (cache_key : String) (ttl_hours : Int) :
    Option JVal × List CacheRow :=
  if cache_key = "" then (none, store)
  else
    match newestRow store cache_key with
    | none => (none, store)
    | some row =>
      match parseIso row.created_at with
      | none => (none, store)
      | some created =>
        let ttl : Int := 3600 * pyMaxI 1 (if ttl_hours = 0 then 72 else ttl_hours)
        if ttl < now - created then (none, store)
        else
          match safeJsonLoad jp (.jstr row.result_json) with
          | some (.jdict fs) => (some (.jdict fs), store)
          | _ => (none, store)

/-- C9: a cache lookup whose newest stored entry is strictly older than
the ttl behaves exactly like a miss — it returns the none result — and
a lookup for a key with no entry at all also returns none; in both
cases (indeed always) the store is unchanged, since the lookup only
reads.  The model is a total function, so no exception is raised. -/
theorem C9_ttl_and_missing_are_misses (jp : String → Option JVal)
    (parseIso : String → Option Int) (now : Int) (store : List CacheRow)
    (key : String) (ttl_hours : Int) :
    (∀ row created, newestRow store key = some row →
      parseIso row.created_at = some created →
      3600 * pyMaxI 1 (if ttl_hours = 0 then 72 else ttl_hours) < now - created →
      get_case2_cache jp parseIso now store key ttl_hours = (none, store)) ∧
    (newestRow store key = none →
      get_case2_cache jp parseIso now store key ttl_hours = (none, store)) ∧
    (get_case2_cache jp parseIso now store key ttl_hours).2 = store := by
  refine ⟨?_, ?_, ?_⟩
  · intro row created hrow hparse hexp
    unfold get_case2_cache
    by_cases hk : key = ""
    · rw [if_pos hk]
    · rw [if_neg hk, hrow]
      dsimp only
      rw [hparse]
      dsimp only
      rw [if_pos hexp]
  · intro hrow
    unfold get_case2_cache
    by_cases hk : key = ""
    · rw [if_pos hk]
    · rw [if_neg hk, hrow]
  · unfold get_case2_cache
    split
    · rfl
    · split
      · rfl
      · split
        · rfl
        · dsimp only
          split
          all_goals
            split
            · rfl
            · split <;> rfl

/-- An expired cache row used to witness C9. -/
def c9row : CacheRow :=
  ⟨1, "case2::example.com::acme industries", "case2_enrichment",
   "not json", "2024-01-01T00:00:00+00:00"⟩

/-- A concrete `_parse_iso` giving `c9row` timestamp 0 seconds. -/
def c9parse : String → Option Int :=
  fun s => if s = "2024-01-01T00:00:00+00:00" then some 0 else none

theorem C9_ttl_and_missing_are_misses_witness :
    get_case2_cache (fun _ => none) c9parse 10000000 [c9row]
      "case2::example.com::acme industries" 72 = (none, [c9row]) :=
  (C9_ttl_and_missing_are_misses (fun _ => none) c9parse 10000000 [c9row]
    "case2::example.com::acme industries" 72).1 c9row 0
    (by decide) (by decide) (by decide)

/-- A leader entry produced by miner.py. -/
structure MLeader where
  name : String
  designation : String
deriving DecidableEq, Repr

/-- Loop of `_norm_leaders` of miner.py: skip non-dict items, empty
names, and entries with "@" in the name or designation; stop at 5. -/
def nlGo (strF : JVal → String) : List JVal → Nat → List MLeader
  | [], _ => []
  | it :: rest, cnt =>
    match it with
    | .jdict fs =>
      let nm := pynormAny strF (jGetD fs "name" (.jstr ""))
      let ds := pynormAny strF (jGetD fs "designation" (.jstr ""))
      if nm == "" then nlGo strF rest cnt
      else if pyInS "@" nm || pyInS "@" ds then nlGo strF rest cnt
      else if 5 ≤ cnt + 1 then [⟨nm, ds⟩] else ⟨nm, ds⟩ :: nlGo strF rest (cnt + 1)
    | _ => nlGo strF rest cnt

/-- `_norm_leaders` of miner.py. -/
def norm_leaders (strF : JVal → String) (value : JVal) : List MLeader :=
  if !(pyTruthy value) then []
  else
    let v1 := match value with
      | .jdict fs =>
        if ((fs.find? (fun p : String × JVal => p.1 == "leaders")).isSome) then
          jGetD fs "leaders" .jnull
        else .jdict fs
      | v => v
    match v1 with
    | .jlist items => nlGo strF items 0
    | _ => []

/-- The normalized (name, designation) pair of one input item, or none
for a non-dict item; used to state order preservation. -/
def nlEntry? (strF : JVal → String) : JVal → Option MLeader
  | .jdict fs => some ⟨pynormAny strF (jGetD fs "name" (.jstr "")),
                      pynormAny strF (jGetD fs "designation" (.jstr ""))⟩
  | _ => none

/-- The item list `_norm_leaders` iterates over. -/
def nlItems (value : JVal) : List JVal :=
  if !(pyTruthy value) then []
  else
    let v1 := match value with
      | .jdict fs =>
        if ((fs.find? (fun p : String × JVal => p.1 == "leaders")).isSome) then
          jGetD fs "leaders" .jnull
        else .jdict fs
      | v => v
    match v1 with
    | .jlist items => items
    | _ => []

theorem nlGo_length (strF : JVal → String) :
    ∀ (items : List JVal) (cnt : Nat), cnt ≤ 4 →
    (nlGo strF items cnt).length ≤ 5 - cnt := by
  intro items
  induction items with
  | nil => intro cnt h; simp [nlGo]
  | cons it rest ih =>
    intro cnt h
    cases it with
    | jdict fs =>
      simp only [nlGo]
      split
      · exact ih cnt h
      · split
        · exact ih cnt h
        · split
          · simpa using (by omega : 1 ≤ 5 - cnt)
          · rename_i hbr
            have hc : cnt + 1 ≤ 4 := by omega
            have := ih (cnt + 1) hc
            simp only [List.length_cons]
            omega
    | jnull => exact ih cnt h
    | jstr s => exact ih cnt h
    | jlist l => exact ih cnt h
    | jother tr => exact ih cnt h

theorem nlGo_entries (strF : JVal → String) :
    ∀ (items : List JVal) (cnt : Nat), ∀ e ∈ nlGo strF items cnt,
    e.name ≠ "" ∧ pyInS "@" e.name = false ∧ pyInS "@" e.designation = false := by
  intro items
  induction items with
  | nil => intro cnt e he; cases he
  | cons it rest ih =>
    intro cnt e he
    cases it with
    | jdict fs =>
      simp only [nlGo] at he
      split at he
      · exact ih cnt e he
      · split at he
        · exact ih cnt e he
        · rename_i hnm hat
          have hnm' : (pynormAny strF (jGetD fs "name" (.jstr "")) == "") = false :=
            bool_eq_false _ hnm
          have hat' : (pyInS "@" (pynormAny strF (jGetD fs "name" (.jstr ""))) ||
              pyInS "@" (pynormAny strF (jGetD fs "designation" (.jstr "")))) = false :=
            bool_eq_false _ hat
          have h1 : pyInS "@" (pynormAny strF (jGetD fs "name" (.jstr ""))) = false := by
            cases hx : pyInS "@" (pynormAny strF (jGetD fs "name" (.jstr ""))) with
            | false => rfl
            | true => rw [hx] at hat'; simp at hat'
          have h2 : pyInS "@" (pynormAny strF (jGetD fs "designation" (.jstr ""))) = false := by
            cases hx : pyInS "@" (pynormAny strF (jGetD fs "designation" (.jstr ""))) with
            | false => rfl
            | true => rw [hx] at hat'; simp at hat'
          split at he
          · rcases List.mem_singleton.mp he with rfl
            exact ⟨by simpa using hnm', h1, h2⟩
          · rcases List.mem_cons.mp he with hh | hh
            · rcases hh with rfl
              exact ⟨by simpa using hnm', h1, h2⟩
            · exact ih (cnt + 1) e hh
    | jnull => exact ih cnt e he
    | jstr s => exact ih cnt e he
    | jlist l => exact ih cnt e he
    | jother tr => exact ih cnt e he

theorem nlGo_sublist (strF : JVal → String) :
    ∀ (items : List JVal) (cnt : Nat),
    (nlGo strF items cnt).Sublist (items.filterMap (nlEntry? strF)) := by
  intro items
  induction items with
  | nil => intro cnt; simp [nlGo]
  | cons it rest ih =>
    intro cnt
    cases it with
    | jdict fs =>
      have hfm : List.filterMap (nlEntry? strF) (JVal.jdict fs :: rest) =
          (⟨pynormAny strF (jGetD fs "name" (.jstr "")),
            pynormAny strF (jGetD fs "designation" (.jstr ""))⟩ : MLeader) ::
          List.filterMap (nlEntry? strF) rest := rfl
      rw [hfm]
      simp only [nlGo]
      split
      · exact List.Sublist.cons _ (ih cnt)
      · split
        · exact List.Sublist.cons _ (ih cnt)
        · split
          · exact List.Sublist.cons₂ _ (List.nil_sublist _)
          · exact List.Sublist.cons₂ _ (ih (cnt + 1))
    | jnull =>
      have hfm : List.filterMap (nlEntry? strF) (JVal.jnull :: rest) =
          List.filterMap (nlEntry? strF) rest := rfl
      rw [hfm]
      exact ih cnt
    | jstr s =>
      have hfm : List.filterMap (nlEntry? strF) (JVal.jstr s :: rest) =
          List.filterMap (nlEntry? strF) rest := rfl
      rw [hfm]
      exact ih cnt
    | jlist l =>
      have hfm : List.filterMap (nlEntry? strF) (JVal.jlist l :: rest) =
          List.filterMap (nlEntry? strF) rest := rfl
      rw [hfm]
      exact ih cnt
    | jother tr =>
      have hfm : List.filterMap (nlEntry? strF) (JVal.jother tr :: rest) =
          List.filterMap (nlEntry? strF) rest := rfl
      rw [hfm]
      exact ih cnt

/-- C10: for every input value, the miner's `_norm_leaders` returns at
most 5 entries; every returned entry has a non-empty name and contains
no "@" in name or designation (entries with "@" are dropped); and the
output is a sublist of the normalized input entries in input order. -/
theorem nl_triv (strF : JVal → String) (its : List JVal) :
    ([] : List MLeader).length ≤ 5 ∧
    (∀ e ∈ ([] : List MLeader),
      e.name ≠ "" ∧ pyInS "@" e.name = false ∧ pyInS "@" e.designation = false) ∧
    ([] : List MLeader).Sublist (its.filterMap (nlEntry? strF)) :=
  ⟨by simp, fun e he => absurd he (List.not_mem_nil e), List.nil_sublist _⟩

theorem nl_main (strF : JVal → String) (items : List JVal) :
    (nlGo strF items 0).length ≤ 5 ∧
    (∀ e ∈ nlGo strF items 0,
      e.name ≠ "" ∧ pyInS "@" e.name = false ∧ pyInS "@" e.designation = false) ∧
    (nlGo strF items 0).Sublist (items.filterMap (nlEntry? strF)) :=
  ⟨by simpa using nlGo_length strF items 0 (by omega),
   nlGo_entries strF items 0, nlGo_sublist strF items 0⟩

theorem C10_norm_leaders_shape (strF : JVal → String) (value : JVal) :
    (norm_leaders strF value).length ≤ 5 ∧
    (∀ e ∈ norm_leaders strF value,
      e.name ≠ "" ∧ pyInS "@" e.name = false ∧ pyInS "@" e.designation = false) ∧
    (norm_leaders strF value).Sublist ((nlItems value).filterMap (nlEntry? strF)) := by
  cases value with
  | jnull => exact nl_triv strF _
  | jother tr =>
    cases tr with
    | false => exact nl_triv strF _
    | true => exact nl_triv strF _
  | jstr s =>
    unfold norm_leaders nlItems
    split
    · exact nl_triv strF _
    · exact nl_triv strF _
  | jlist items =>
    unfold norm_leaders nlItems
    split
    · exact nl_triv strF _
    · exact nl_main strF items
  | jdict fs =>
    unfold norm_leaders nlItems
    split
    · exact nl_triv strF _
    · dsimp only
      split
      · rename_i items heq
        exact nl_main strF items
      · exact nl_triv strF _

/-- A concrete input for C10: a valid leader, an entry with "@" in the
name (dropped), and a non-dict item (skipped). -/
def c10val : JVal :=
  .jlist [.jdict [("name", .jstr "Anita Verma"), ("designation", .jstr "CEO")],
          .jdict [("name", .jstr "bob@example.com"), ("designation", .jstr "CTO")],
          .jstr "noise"]

theorem C10_norm_leaders_shape_witness :
    (norm_leaders (fun _ => "") c10val).length ≤ 5 ∧
    ((⟨"Anita Verma", "CEO"⟩ : MLeader).name ≠ "" ∧
      pyInS "@" (⟨"Anita Verma", "CEO"⟩ : MLeader).name = false ∧
      pyInS "@" (⟨"Anita Verma", "CEO"⟩ : MLeader).designation = false) ∧
    (norm_leaders (fun _ => "") c10val).Sublist
      ((nlItems c10val).filterMap (nlEntry? (fun _ => ""))) :=
  ⟨(C10_norm_leaders_shape (fun _ => "") c10val).1,
   (C10_norm_leaders_shape (fun _ => "") c10val).2.1 ⟨"Anita Verma", "CEO"⟩ (by decide),
   (C10_norm_leaders_shape (fun _ => "") c10val).2.2⟩

end LeadEngine
